import Mathlib

/-!
# Stratum session layer (`scripts/main/stratum.js`)

A shallow embedding of the per-connection protocol engine `StratumClient`:
the receive handler (framing, flood guard, JSON decoding, method dispatch),
the submit path together with the banning policy, and the difficulty / job
push operations.  Every effect the session has on the outside world (signals
raised with `emit`, `socket.write`, `socket.destroy`, calls of `JSON.parse`
and of the authorization collaborator) is appended to a chronological trace.
Of `StratumServer` it embeds the banned-host table (ban check, periodic purge),
the subscription counter and the accept path with manual client injection.
-/

namespace Stratum

/-! ## JavaScript values -/

/-- JavaScript values that reach the session: decoded JSON documents, the
values handed over by the collaborators' completion callbacks, and the
documents the session serialises onto the wire.  Numbers are the finite
ones (`NaN` and the infinities are not JSON and are left out). -/
inductive JsVal where
  | undefined
  | null
  | bool (b : Bool)
  | num (q : ℚ)
  | str (s : String)
  /-- The one-unit string made of the unpaired UTF-16 surrogate `unit`; only
  indexing into a string produces it. -/
  | loneSurrogate (unit : Nat)
  | arr (items : List JsVal)
  | obj (fields : List (String × JsVal))

namespace JsVal

/-- JavaScript truthiness (`if (v)`, `!v`). -/
def truthy : JsVal → Bool
  | undefined => false
  | null => false
  | bool b => b
  | num q => decide (q ≠ 0)
  | str s => decide (s ≠ "")
  | loneSurrogate _ => true
  | arr _ => true
  | obj _ => true

/-- Property read `v.key` for the keys `id`, `method` and `params`, on a value
that is neither `null` nor `undefined` (the receive handler dispatches truthy
documents only).  Only objects carry such properties. -/
def get (v : JsVal) (key : String) : JsVal :=
  match v with
  | obj fields => (fields.lookup key).getD undefined
  | _ => undefined

/-- The UTF-16 code units of a text: one unit for a character of the Basic
Multilingual Plane, a surrogate pair for any other. -/
def utf16Units : List Char → List Nat
  | [] => []
  | c :: cs =>
    if c.toNat < 0x10000 then c.toNat :: utf16Units cs
    else
      (0xD800 + (c.toNat - 0x10000) / 0x400) :: (0xDC00 + (c.toNat - 0x10000) % 0x400)
        :: utf16Units cs

/-- The one-unit string holding the UTF-16 code unit `unit`. -/
def ofUnit (unit : Nat) : JsVal :=
  if 0xD800 ≤ unit ∧ unit ≤ 0xDFFF then loneSurrogate unit
  else str (String.singleton (Char.ofNat unit))

/-- Indexed read `v[i]`.  It throws (`none`) on `null` and `undefined`; on an
array it is the `i`-th element, on a string the one-unit string of its `i`-th
UTF-16 code unit, on an object the property named by the decimal text of `i`,
and `undefined` elsewhere. -/
def index (v : JsVal) (i : Nat) : Option JsVal :=
  match v with
  | undefined => none
  | null => none
  | arr items => some (items.getD i undefined)
  | str s => some (((utf16Units s.toList).get? i).elim undefined ofUnit)
  | loneSurrogate unit => some (if i = 0 then loneSurrogate unit else undefined)
  | obj fields => some ((fields.lookup (toString i)).getD undefined)
  | _ => some undefined

end JsVal

/-! ## Double-precision arithmetic of the invalid-share percentage -/

/-- A non-negative finite double, `mant / 2 ^ shift`. -/
structure Dbl where
  mant : Nat
  shift : Int
  deriving DecidableEq, Repr

/-- Number of binary digits of `n`, by halving (`fuel` bounds the halvings). -/
def bitLenAux : Nat → Nat → Nat
  | 0, _ => 0
  | fuel + 1, n => if n = 0 then 0 else bitLenAux fuel (n / 2) + 1

/-- Number of binary digits of `n`. -/
def bitLen (n : Nat) : Nat := bitLenAux n n

/-- The fraction `n / d` (`d > 0`) rounded to 53 significant bits, ties to
even: the IEEE-754 double nearest to it (the exponent range of doubles is not
reached by the quotients and products computed here). -/
def Dbl.round (n d : Nat) : Dbl :=
  let a : Int := (bitLen n : Int) - (bitLen d : Int)
  let s0 : Int := 52 - a
  let num0 := if 0 ≤ s0 then n * 2 ^ s0.toNat else n
  let den := if 0 ≤ s0 then d else d * 2 ^ (-s0).toNat
  let low := decide (num0 < den * 2 ^ 52)
  let s : Int := if low then s0 + 1 else s0
  let num := if low then num0 * 2 else num0
  let m := num / den
  let r := num % den
  let m1 :=
    if 2 * r < den then m
    else if den < 2 * r then m + 1
    else if m % 2 = 0 then m else m + 1
  ⟨m1, s⟩

/-- JavaScript `a / b` on two non-negative integers below `2 ^ 53`. -/
def Dbl.div (a b : Nat) : Dbl := Dbl.round a b

/-- JavaScript `x * k` for a double `x` and a non-negative integer `k`. -/
def Dbl.mulNat (x : Dbl) (k : Nat) : Dbl :=
  if 0 ≤ x.shift then Dbl.round (x.mant * k) (2 ^ x.shift.toNat)
  else Dbl.round (x.mant * k * 2 ^ (-x.shift).toNat) 1

/-- JavaScript `x < p` for a double `x` and a non-negative integer `p`. -/
def Dbl.ltNat (x : Dbl) (p : Nat) : Bool :=
  if 0 ≤ x.shift then decide (x.mant < p * 2 ^ x.shift.toNat)
  else decide (x.mant * 2 ^ (-x.shift).toNat < p)

/-- The number `floor x` for a double `x`. -/
def Dbl.floor (x : Dbl) : Nat :=
  if 0 ≤ x.shift then x.mant / 2 ^ x.shift.toNat else x.mant * 2 ^ (-x.shift).toNat

/-- The expression `(invalid / totalShares) * 100` of `banningEnabled`. -/
def percentBad (invalid totalShares : Nat) : Dbl :=
  Dbl.mulNat (Dbl.div invalid totalShares) 100

/-! ## Signals, effects and session state -/

/-- Text on the wire: the decoded UTF-8 chunks the transport delivers and the
segments cut out of them. -/
abbrev Text := List Char

/-- Signals the session raises with `_this.emit(name, ...)`.  The `subscription`
and `submit` signals carry the request whose completion callback they hand to
the collaborator. -/
inductive Event where
  | checkBan
  | tcpProxyError (d : Text)
  | socketFlooded
  | malformedMessage (message : Text)
  | unknownStratumMethod (message : JsVal)
  | subscription (message : JsVal)
  | submit (message : JsVal)
  | triggerBan (reason : String)
  | socketTimeout (reason : String)
  | difficultyChanged (difficulty : Option ℚ)
  | kickedBannedIP (secondsLeft : Int)
  | forgaveBannedIP

/-- What the session does to its surroundings, in the order it does it. -/
inductive Effect where
  /-- Call `_this.emit`. -/
  | emit (ev : Event)
  /-- Call `socket.write` with the concatenation of `JSON.stringify(doc) + '\n'`
  over `docs`. -/
  | write (docs : List JsVal)
  /-- Call `socket.destroy()`. -/
  | destroy
  /-- Call `JSON.parse(text)`. -/
  | parse (text : Text)
  /-- Call `handleMessage(messageJson)` from the receive handler. -/
  | dispatch (messageJson : JsVal)
  /-- Call `options.authorizeFn(remoteAddress, localPort, workerName,
  workerPass, callback)`; the callback closes over `message` and
  `replyToSocket`. -/
  | authorize (remoteAddress : Option String) (localPort : Nat)
      (workerName workerPass : JsVal) (message : JsVal) (replyToSocket : Bool)

/-- The `banning` section of the configuration. -/
structure Banning where
  enabled : Bool
  checkThreshold : Nat
  invalidPercent : Nat
  time : Nat
  purgeInterval : Nat

/-- The `options` a `StratumClient` is constructed with. -/
structure Options where
  subscriptionId : String
  banning : Option Banning
  connectionTimeout : Nat
  tcpProxyProtocol : Bool
  localPort : Nat

/-- The counters `shares`. -/
structure Shares where
  valid : Nat
  invalid : Nat
  deriving DecidableEq, Repr

/-- State of one `StratumClient`: its public properties, the private variables
`pendingDifficulty` and `dataBuffer`, whether the one-shot proxy listener is
still armed, the property `shares` of the global object (which the banning
policy assigns through an unbound `this`), and the trace of effects so far.
A difficulty of `none` is `undefined` (for `pendingDifficulty`: `null`). -/
structure Session where
  lastActivity : Int
  remoteAddress : Option String
  shares : Shares
  authorized : JsVal
  extraNonce1 : JsVal
  workerName : JsVal
  workerPass : JsVal
  requestedSubscriptionBeforeAuth : Bool
  difficulty : Option ℚ
  previousDifficulty : Option ℚ
  pendingDifficulty : Option ℚ
  dataBuffer : Text
  proxyListenerArmed : Bool
  globalShares : Option Shares
  trace : List Effect

/-- Append effects to the trace. -/
def Session.log (s : Session) (es : List Effect) : Session :=
  { s with trace := s.trace ++ es }

/-- The session right after `new StratumClient(options)` at time `now` on a
socket whose peer address is `remoteAddress`. -/
def Session.fresh (now : Int) (remoteAddress : Option String) : Session :=
  { lastActivity := now
    remoteAddress := remoteAddress
    shares := ⟨0, 0⟩
    authorized := .undefined
    extraNonce1 := .undefined
    workerName := .undefined
    workerPass := .undefined
    requestedSubscriptionBeforeAuth := false
    difficulty := none
    previousDifficulty := none
    pendingDifficulty := none
    dataBuffer := []
    proxyListenerArmed := false
    globalShares := none
    trace := [] }

/-- A reply `{id, result, error}`. -/
def reply (id result error : JsVal) : JsVal :=
  .obj [("id", id), ("result", result), ("error", error)]

/-- A notification `{id: null, method, params}`. -/
def notification (method : String) (params : JsVal) : JsVal :=
  .obj [("id", .null), ("method", .str method), ("params", params)]

/-- The triple `[code, message, null]` of an error reply. -/
def errorTriple (code : Nat) (message : String) : JsVal :=
  .arr [.num code, .str message, .null]

/-- The function `sendJson`: one `socket.write` of all its arguments. -/
def sendJson (docs : List JsVal) (s : Session) : Session :=
  s.log [.write docs]

/-! ## Banning policy -/

/-- The function `banningDisabled`. -/
def banningDisabled (_shareValid : JsVal) (s : Session) : Bool × Session :=
  (false, s)

/-- The counters after the first `if` of `banningEnabled`. -/
def countShare (shareValid : JsVal) (sh : Shares) : Shares :=
  match shareValid with
  | .bool true => { sh with valid := sh.valid + 1 }
  | _ => { sh with invalid := sh.invalid + 1 }

/-- The text handed to the `triggerBan` signal. -/
def banReason (invalid totalShares : Nat) : String :=
  toString invalid ++ " out of the last " ++ toString totalShares ++ " shares were invalid"

/-- The function `banningEnabled`.  It is always called as a plain function,
so the `this` of `this.shares = ...` is the global object, not the session. -/
def banningEnabled (b : Banning) (shareValid : JsVal) (s : Session) : Bool × Session :=
  let s1 := { s with shares := countShare shareValid s.shares }
  let totalShares := s1.shares.valid + s1.shares.invalid
  if b.checkThreshold ≤ totalShares then
    if (percentBad s1.shares.invalid totalShares).ltNat b.invalidPercent then
      (false, { s1 with globalShares := some ⟨0, 0⟩ })
    else
      (true, s1.log [.emit (.triggerBan (banReason s1.shares.invalid totalShares)), .destroy])
  else
    (false, s1)

/-- The strategy `considerBan` chosen at construction. -/
def considerBan (o : Options) (shareValid : JsVal) (s : Session) : Bool × Session :=
  match o.banning with
  | none => banningDisabled shareValid s
  | some b => if b.enabled then banningEnabled b shareValid s else banningDisabled shareValid s

/-- Feed a sequence of share outcomes to the enabled policy, collecting what
each call returns. -/
def feedShares (b : Banning) : List JsVal → Session → List Bool × Session
  | [], s => ([], s)
  | v :: vs, s =>
    let r := banningEnabled b v s
    let rest := feedShares b vs r.2
    (r.1 :: rest.1, rest.2)

/-! ## Method handlers -/

/-- The function `handleSubmit`. -/
def handleSubmit (o : Options) (message : JsVal) (s : Session) : Session :=
  if !s.authorized.truthy then
    (considerBan o (.bool false)
      (sendJson [reply (message.get "id") .null (errorTriple 24 "unauthorized worker")] s)).2
  else if !s.extraNonce1.truthy then
    (considerBan o (.bool false)
      (sendJson [reply (message.get "id") .null (errorTriple 25 "not subscribed")] s)).2
  else
    s.log [.emit (.submit message)]

/-- The completion callback `function(error, result)` that `handleSubmit`
hands to the `submit` signal for `message`. -/
def submitCompletion (o : Options) (message : JsVal) (error result : JsVal)
    (s : Session) : Session :=
  let r := considerBan o result s
  if !r.1 then sendJson [reply (message.get "id") result error] r.2 else r.2

/-- The property `_authorized` read by `handleSubscribe`: the program never
writes it, so the read yields `undefined`. -/
def Session.underscoreAuthorized (_s : Session) : JsVal := .undefined

/-- The function `handleSubscribe`. -/
def handleSubscribe (message : JsVal) (s : Session) : Session :=
  let s1 :=
    if !s.underscoreAuthorized.truthy then { s with requestedSubscriptionBeforeAuth := true }
    else s
  s1.log [.emit (.subscription message)]

/-- The completion callback `function(error, extraNonce1, extraNonce2Size)`
that `handleSubscribe` hands to the `subscription` signal for `message`. -/
def subscribeCompletion (o : Options) (message : JsVal)
    (error extraNonce1 extraNonce2Size : JsVal) (s : Session) : Session :=
  if error.truthy then
    sendJson [reply (message.get "id") .null error] s
  else
    sendJson
      [reply (message.get "id")
        (.arr [.arr [.arr [.str "mining.set_difficulty", .str o.subscriptionId],
                     .arr [.str "mining.notify", .str o.subscriptionId]],
               extraNonce1, extraNonce2Size])
        .null]
      { s with extraNonce1 := extraNonce1 }

/-- The function `handleAuthorize`.  Reading `message.params[0]` throws when
`params` is missing or `null`; the session at the throw is returned as the
error. -/
def handleAuthorize (o : Options) (message : JsVal) (replyToSocket : Bool)
    (s : Session) : Except Session Session :=
  match (message.get "params").index 0, (message.get "params").index 1 with
  | some name, some pass =>
    let s1 := { s with workerName := name, workerPass := pass }
    .ok (s1.log [.authorize s1.remoteAddress o.localPort name pass message replyToSocket])
  | _, _ => .error s

/-- The completion callback `function(result)` of `handleAuthorize`, for a
`result` that is an object. -/
def authorizeCompletion (message : JsVal) (replyToSocket : Bool) (result : JsVal)
    (s : Session) : Session :=
  let authorized :=
    if (result.get "error").truthy then JsVal.bool false else result.get "authorized"
  let s1 := { s with authorized := authorized }
  let s2 :=
    if replyToSocket then sendJson [reply (message.get "id") authorized (result.get "error")] s1
    else s1
  match result.get "disconnect" with
  | .bool true => s2.log [.destroy]
  | _ => s2

/-- The function `handleMessage`, at time `now`. -/
def handleMessage (o : Options) (now : Int) (message : JsVal) (s : Session) :
    Except Session Session :=
  match message.get "method" with
  | .str method =>
    if method = "mining.subscribe" then .ok (handleSubscribe message s)
    else if method = "mining.authorize" then handleAuthorize o message true s
    else if method = "mining.submit" then
      .ok (handleSubmit o message { s with lastActivity := now })
    else if method = "mining.get_transactions" then
      .ok (sendJson [reply .null (.arr []) (.bool true)] s)
    else if method = "mining.extranonce.subscribe" then
      .ok (sendJson [reply (message.get "id") (.bool false)
        (.arr [.num 20, .str "Not supported.", .null])] s)
    else .ok (s.log [.emit (.unknownStratumMethod message)])
  | _ => .ok (s.log [.emit (.unknownStratumMethod message)])

/-! ## Receive handler -/

/-- The call `Buffer.byteLength(text, 'utf8')`. -/
def byteLength : Text → Nat
  | [] => 0
  | c :: cs => c.utf8Size + byteLength cs

/-- The call `text.split(sep)` for a one-character separator. -/
def splitOn (sep : Char) : Text → List Text
  | [] => [[]]
  | c :: cs =>
    if c = sep then [] :: splitOn sep cs
    else
      match splitOn sep cs with
      | [] => [[c]]
      | seg :: rest => (c :: seg) :: rest

/-- The proxy marker. -/
def proxyMarker : Text := ['P', 'R', 'O', 'X', 'Y']

/-- The test `d.indexOf(marker) === 0`. -/
def startsWith : Text → Text → Bool
  | [], _ => true
  | _ :: _, [] => false
  | m :: ms, c :: cs => decide (m = c) && startsWith ms cs

/-- Outcome of code that may throw: the session it leaves behind either way. -/
def outcome : Except Session Session → Session
  | .ok s => s
  | .error s => s

/-- The body of the `forEach` callback of the receive handler for one segment
`message` of the chunk `d`; `decode` is `JSON.parse` (`none` when it throws). -/
def processMessage (o : Options) (decode : Text → Option JsVal) (now : Int) (d : Text)
    (message : Text) (s : Session) : Except Session Session :=
  if message = [] then .ok s
  else
    let s1 := s.log [.parse message]
    match decode message with
    | none =>
      if !o.tcpProxyProtocol || !startsWith proxyMarker d then
        .ok (s1.log [.emit (.malformedMessage message), .destroy])
      else .ok s1
    | some messageJson =>
      if messageJson.truthy then handleMessage o now messageJson (s1.log [.dispatch messageJson])
      else .ok s1

/-- The loop `messages.forEach(...)`: a throw abandons the remaining segments. -/
def processMessages (o : Options) (decode : Text → Option JsVal) (now : Int) (d : Text) :
    List Text → Session → Except Session Session
  | [], s => .ok s
  | message :: rest, s =>
    match processMessage o decode now d message s with
    | .ok s1 => processMessages o decode now d rest s1
    | .error e => .error e

/-- The listener `socket.on('data', function(d) ...)`, run at time `now`. -/
def onData (o : Options) (decode : Text → Option JsVal) (now : Int) (d : Text)
    (s : Session) : Except Session Session :=
  let dataBuffer := s.dataBuffer ++ d
  let s1 := { s with dataBuffer := dataBuffer }
  if byteLength dataBuffer > 10240 then
    .ok ({ s1 with dataBuffer := [] }.log [.emit .socketFlooded, .destroy])
  else if '\n' ∈ dataBuffer then
    let messages := splitOn '\n' dataBuffer
    let endsInNewline := dataBuffer.getLast? = some '\n'
    let incomplete := if endsInNewline then [] else messages.getLast?.getD []
    let complete := if endsInNewline then messages else messages.dropLast
    match processMessages o decode now d complete s1 with
    | .ok s2 => .ok { s2 with dataBuffer := incomplete }
    | .error e => .error e
  else .ok s1

/-- The one-shot listener `socket.once('data', function(d) ...)` of proxy mode. -/
def proxyFirstChunk (d : Text) (s : Session) : Session :=
  let s1 :=
    if startsWith proxyMarker d then
      { s with remoteAddress := ((splitOn ' ' d).get? 2).map String.mk }
    else s.log [.emit (.tcpProxyError d)]
  { s1 with proxyListenerArmed := false }.log [.emit .checkBan]

/-- The function `setupSocket`, as far as it acts at once. -/
def setupSocket (o : Options) (s : Session) : Session :=
  if o.tcpProxyProtocol then { s with proxyListenerArmed := true }
  else s.log [.emit .checkBan]

/-- A `data` event of the socket: the one-shot proxy listener when it is still
armed, then the receive handler. -/
def receive (o : Options) (decode : Text → Option JsVal) (now : Int) (d : Text)
    (s : Session) : Except Session Session :=
  onData o decode now d (if s.proxyListenerArmed then proxyFirstChunk d s else s)

/-! ## Difficulty and job push -/

/-- The method `enqueueNextDifficulty` (`none` for a `null` request). -/
def enqueueNextDifficulty (requestedNewDifficulty : Option ℚ) (s : Session) :
    Bool × Session :=
  (true, { s with pendingDifficulty := requestedNewDifficulty })

/-- The notification `mining.set_difficulty`. -/
def setDifficultyDoc (difficulty : ℚ) : JsVal :=
  notification "mining.set_difficulty" (.arr [.num difficulty])

/-- The method `sendDifficulty`. -/
def sendDifficulty (difficulty : ℚ) (s : Session) : Bool × Session :=
  if some difficulty = s.difficulty then (false, s)
  else
    (true, sendJson [setDifficultyDoc difficulty]
      { s with previousDifficulty := s.difficulty, difficulty := some difficulty })

/-- JavaScript `n | 0` on an integer `n`. -/
def toInt32 (n : Int) : Int :=
  (n + 2 ^ 31) % 2 ^ 32 - 2 ^ 31

/-- The text handed to the `socketTimeout` signal, for a positive
`lastActivityAgo`. -/
def timeoutReason (lastActivityAgo : Int) : String :=
  "last submitted a share was "
    ++ toString (toInt32 (Dbl.floor (Dbl.div lastActivityAgo.toNat 1000)))
    ++ " seconds ago"

/-- The method `sendMiningJob`, run at time `now`. -/
def sendMiningJob (o : Options) (now : Int) (jobParams : JsVal) (s : Session) : Session :=
  let lastActivityAgo := now - s.lastActivity
  if lastActivityAgo > o.connectionTimeout * 1000 then
    s.log [.emit (.socketTimeout (timeoutReason lastActivityAgo)), .destroy]
  else
    let s1 :=
      match s.pendingDifficulty with
      | some pending =>
        let r := sendDifficulty pending s
        let s2 := { r.2 with pendingDifficulty := none }
        if r.1 then s2.log [.emit (.difficultyChanged s2.difficulty)] else s2
      | none => s
    sendJson [notification "mining.notify" jobParams] s1

/-! ## Transport error listener -/

/-- The listener `socket.on('error', function(e) ...)` for an error object whose
`code` property is `code`.  For a code other than `ECONNRESET` the argument
`err` of the `emit` call is evaluated first; no variable of that name exists
(the parameter is `e`), so a ReferenceError is thrown and nothing is raised. -/
def onError (code : JsVal) (s : Session) : Except Session Session :=
  match code with
  | .str c => if c = "ECONNRESET" then .ok s else .error s
  | _ => .error s

/-! ## Server: banned-host table -/

/-- The `options` a `StratumServer` is constructed with, as far as the sessions
and the ban table use them. -/
structure ServerOptions where
  banning : Option Banning
  connectionTimeout : Nat
  tcpProxyProtocol : Bool

/-- The object `bannedIPs`: its own properties, host to ban-start timestamp. -/
abbrev BanTable := List (String × Int)

/-- The property names every object inherits from `Object.prototype`; the
operator `in` finds them in `bannedIPs` although they are not entries. -/
def objectPrototypeKeys : List String :=
  ["constructor", "__defineGetter__", "__defineSetter__", "hasOwnProperty",
   "__lookupGetter__", "__lookupSetter__", "isPrototypeOf", "propertyIsEnumerable",
   "toString", "valueOf", "__proto__", "toLocaleString"]

/-- The property key a remote address is used as (`undefined` becomes the text
`undefined`). -/
def hostKey (remoteAddress : Option String) : String :=
  remoteAddress.getD "undefined"

/-- The statement `delete bannedIPs[key]`. -/
def BanTable.delete (table : BanTable) (key : String) : BanTable :=
  table.filter (fun entry => decide (entry.1 ≠ key))

/-- The constant `bannedMS`, in milliseconds, when a banning section exists. -/
def bannedMS (b : Banning) : Int := (b.time : Int) * 1000

/-- The function `checkBan`, run at time `now`.  For an entry of the table the
stored timestamp decides; for a name inherited from `Object.prototype` the
value read is not a number, `timeLeft` is `NaN`, `timeLeft > 0` fails and the
forgiving branch runs (its `delete` removes nothing). -/
def checkBan (so : ServerOptions) (now : Int) (client : Session) (bannedIPs : BanTable) :
    Session × BanTable :=
  match so.banning with
  | none => (client, bannedIPs)
  | some b =>
    if b.enabled then
      match bannedIPs.lookup (hostKey client.remoteAddress) with
      | some bannedTime =>
        let bannedTimeAgo := now - bannedTime
        let timeLeft := bannedMS b - bannedTimeAgo
        if timeLeft > 0 then
          (client.log [.destroy,
            .emit (.kickedBannedIP (toInt32 (Dbl.floor (Dbl.div timeLeft.toNat 1000))))],
           bannedIPs)
        else
          (client.log [.emit .forgaveBannedIP],
            bannedIPs.delete (hostKey client.remoteAddress))
      | none =>
        if hostKey client.remoteAddress ∈ objectPrototypeKeys then
          (client.log [.emit .forgaveBannedIP], bannedIPs)
        else (client, bannedIPs)
    else (client, bannedIPs)

/-- One run of the callback of `setInterval` in `initializeServer`, at time
`now`: the purge of the banned-host table. -/
def purgeBans (b : Banning) (now : Int) (bannedIPs : BanTable) : BanTable :=
  bannedIPs.filter (fun entry => !decide (now - entry.2 > (b.time : Int)))

/-- The method `addBannedIP`, run at time `now` (assigning to the key
`__proto__` creates no entry). -/
def addBannedIP (now : Int) (ipAddress : String) (bannedIPs : BanTable) : BanTable :=
  if ipAddress = "__proto__" then bannedIPs
  else (ipAddress, now) :: bannedIPs.delete ipAddress

/-! ## Server: subscription counter and accept path -/

/-- The constant `Number.MAX_VALUE`, that is `(2 ^ 53 - 1) * 2 ^ 971`. -/
def maxValue : Nat := (2 ^ 53 - 1) * (2 ^ 250 * 2 ^ 250 * 2 ^ 250 * 2 ^ 221)

/-- The statement `count++` on a non-negative integer: the double nearest to
`count + 1`. -/
def increment (count : Nat) : Nat := Dbl.floor (Dbl.round (count + 1) 1)

/-- Modelled from the spec: `util.packUInt64LE`, whose module `util.js` is not
among the sources; the spec calls its result "an 8-byte little-endian encoding
of the count".  The bytes are listed from the least significant one. -/
def packUInt64LE (n : Nat) : List Nat :=
  (List.range 8).map (fun i => n / 256 ^ i % 256)

/-- The two hexadecimal digits of a byte. -/
def hexByte (b : Nat) : List Char := [Nat.digitChar (b / 16), Nat.digitChar (b % 16)]

/-- The call `buffer.toString('hex')`. -/
def toHex : List Nat → List Char
  | [] => []
  | b :: bs => hexByte b ++ toHex bs

/-- The variable `padding` of `SubscriptionCounter`. -/
def padding : String := "deadbeefcafebabe"

/-- The identifier `padding + util.packUInt64LE(count).toString('hex')`. -/
def subscriptionIdOf (count : Nat) : String :=
  padding ++ String.mk (toHex (packUInt64LE count))

/-- The method `next` of `SubscriptionCounter`, on the private variable
`count`: the identifier returned and the new count. -/
def SubscriptionCounter.next (count : Nat) : String × Nat :=
  let count1 := increment count
  let count2 := if maxValue = count1 then 0 else count1
  (subscriptionIdOf count2, count2)

/-- The private `count` after `k` calls of `next` on a new counter. -/
def countAfter : Nat → Nat
  | 0 => 0
  | k + 1 => (SubscriptionCounter.next (countAfter k)).2

/-- The identifier returned by the `k`-th call of `next` on a new counter
(`k ≥ 1`). -/
def nthSubscriptionId (k : Nat) : String :=
  (SubscriptionCounter.next (countAfter (k - 1))).1

/-- Signals raised by the server. -/
inductive ServerEvent where
  | clientConnected (subscriptionId : String)
  | clientDisconnected (subscriptionId : String)

/-- State of a `StratumServer`: the registry `stratumClients`, the count of its
`subscriptionCounter`, the table `bannedIPs` and the signals raised so far. -/
structure Server where
  stratumClients : List (String × Session)
  count : Nat
  bannedIPs : BanTable
  signals : List ServerEvent

/-- The options `handleNewClient` constructs a `StratumClient` with, for a
socket whose local port is `localPort`. -/
def clientOptions (so : ServerOptions) (subscriptionId : String) (localPort : Nat) : Options :=
  { subscriptionId := subscriptionId, banning := so.banning,
    connectionTimeout := so.connectionTimeout, tcpProxyProtocol := so.tcpProxyProtocol,
    localPort := localPort }

/-- The assignment `stratumClients[subscriptionId] = client`. -/
def register (subscriptionId : String) (client : Session)
    (stratumClients : List (String × Session)) : List (String × Session) :=
  (subscriptionId, client) :: stratumClients.filter (fun e => decide (e.1 ≠ subscriptionId))

/-- The method `handleNewClient`, run at time `now` for a socket with the given
peer address and local port.  `client.init()` runs `setupSocket`; outside proxy
mode this raises `checkBan` at once, which the listener wired just before
answers with `checkBan(client)`.  The value returned is the subscription id in
every case. -/
def handleNewClient (so : ServerOptions) (now : Int) (remoteAddress : Option String)
    (localPort : Nat) (srv : Server) : String × Server :=
  let next := SubscriptionCounter.next srv.count
  let subscriptionId := next.1
  let client := setupSocket (clientOptions so subscriptionId localPort)
    (Session.fresh now remoteAddress)
  let checked :=
    if so.tcpProxyProtocol then (client, srv.bannedIPs)
    else checkBan so now client srv.bannedIPs
  (subscriptionId,
    { stratumClients := register subscriptionId checked.1 srv.stratumClients
      count := next.2
      bannedIPs := checked.2
      signals := srv.signals ++ [.clientConnected subscriptionId] })

/-- The method `manuallyAuthClient`. -/
def manuallyAuthClient (o : Options) (username password : JsVal) (s : Session) :
    Except Session Session :=
  handleAuthorize o (.obj [("id", .num 1), ("params", .arr [username, password])]) false s

/-- The method `manuallySetValues`. -/
def manuallySetValues (otherClient : Session) (s : Session) : Session :=
  { s with
    extraNonce1 := otherClient.extraNonce1
    previousDifficulty := otherClient.previousDifficulty
    difficulty := otherClient.difficulty }

/-- The method `manuallyAddStratumClient`, run at time `now` for `clientObj`
whose socket has the given peer address and local port.  The test
`subId != null` always passes, a subscription id being a string. -/
def manuallyAddStratumClient (so : ServerOptions) (now : Int)
    (socketAddress : Option String) (localPort : Nat) (clientObj : Session) (srv : Server) :
    Except Server Server :=
  let added := handleNewClient so now socketAddress localPort srv
  match added.2.stratumClients.lookup added.1 with
  | none => .error added.2
  | some client =>
    match manuallyAuthClient (clientOptions so added.1 localPort)
        clientObj.workerName clientObj.workerPass client with
    | .error _ => .error added.2
    | .ok client1 =>
      .ok { added.2 with
        stratumClients :=
          register added.1 (manuallySetValues clientObj client1) added.2.stratumClients }

/-! ## Sample configurations and sessions -/

/-- Banning configuration with a window of 100 shares and a 57 % limit. -/
def banning57 : Banning :=
  { enabled := true, checkThreshold := 100, invalidPercent := 57, time := 600,
    purgeInterval := 300 }

/-- Banning configuration with a window of 2 shares and a 50 % limit. -/
def banning50 : Banning :=
  { enabled := true, checkThreshold := 2, invalidPercent := 50, time := 600,
    purgeInterval := 300 }

/-- Options of a session on port 3333 with the given banning section. -/
def sampleOptions (banning : Option Banning) (tcpProxyProtocol : Bool) : Options :=
  { subscriptionId := "deadbeefcafebabe0100000000000000", banning := banning,
    connectionTimeout := 600, tcpProxyProtocol := tcpProxyProtocol, localPort := 3333 }

/-- A fresh session that has already counted the given shares. -/
def sessionWithShares (valid invalid : Nat) : Session :=
  { Session.fresh 0 (some "10.0.0.7") with shares := ⟨valid, invalid⟩ }

/-- An authorized session whose `extraNonce1` was assigned the empty string. -/
def sessionEmptyNonce : Session :=
  { Session.fresh 0 (some "10.0.0.7") with authorized := .bool true, extraNonce1 := .str "" }

/-- An authorized and subscribed session. -/
def sessionReady : Session :=
  { Session.fresh 0 (some "10.0.0.7") with
    authorized := .bool true, extraNonce1 := .str "60000001" }

/-- The decoded frame `{"id": 7, "method": "mining.submit", "params": []}`. -/
def submitFrame : JsVal :=
  .obj [("id", .num 7), ("method", .str "mining.submit"), ("params", .arr [])]

/-! ## Reading traces and texts -/

/-- The texts handed to `JSON.parse`, in order. -/
def parsesOf : List Effect → List Text
  | [] => []
  | .parse text :: es => text :: parsesOf es
  | _ :: es => parsesOf es

/-- The documents handed to `handleMessage` by the receive handler, in order. -/
def dispatchesOf : List Effect → List JsVal
  | [] => []
  | .dispatch messageJson :: es => messageJson :: dispatchesOf es
  | _ :: es => dispatchesOf es

/-- Number of `socketFlooded` signals. -/
def floodsOf : List Effect → Nat
  | [] => 0
  | .emit .socketFlooded :: es => floodsOf es + 1
  | _ :: es => floodsOf es

/-- The text made of the given segments, each terminated by a newline. -/
def joinFrames : List Text → Text
  | [] => []
  | seg :: rest => seg ++ '\n' :: joinFrames rest

/-- Whether `handleMessage` throws on `message`: it does on a
`mining.authorize` request whose `params` is missing or `null`. -/
def handlerThrows (message : JsVal) : Bool :=
  match message.get "method" with
  | .str method => decide (method = "mining.authorize") && ((message.get "params").index 0).isNone
  | _ => false

/-- The frame `{"id":1,"method":"mining.authorize"}`. -/
def authorizeNoParamsText : Text :=
  "\x7b\"id\":1,\"method\":\"mining.authorize\"\x7d".toList

/-- The frame `{"id":2,"method":"mining.subscribe","params":[]}`. -/
def subscribeText : Text :=
  "\x7b\"id\":2,\"method\":\"mining.subscribe\",\"params\":[]\x7d".toList

/-- The frame `{"id":7,"method":"mining.submit","params":[]}`. -/
def submitText : Text :=
  "\x7b\"id\":7,\"method\":\"mining.submit\",\"params\":[]\x7d".toList

/-- A proxy-protocol preamble line. -/
def proxyLine : Text := "PROXY TCP4 1.2.3.4 5.6.7.8 1000 3333".toList

/-- The decoded `authorizeNoParamsText`. -/
def authorizeNoParamsDoc : JsVal :=
  .obj [("id", .num 1), ("method", .str "mining.authorize")]

/-- The decoded `subscribeText`. -/
def subscribeDoc : JsVal :=
  .obj [("id", .num 2), ("method", .str "mining.subscribe"), ("params", .arr [])]

/-- The function `JSON.parse` on the texts used as examples below: the three
frames above decode to their documents, and the other texts used (`garbage`,
the proxy preamble) are not JSON. -/
def sampleDecode (text : Text) : Option JsVal :=
  if text = authorizeNoParamsText then some authorizeNoParamsDoc
  else if text = subscribeText then some subscribeDoc
  else if text = submitText then some submitFrame
  else none

/-- Effects that only the receive handler itself produces (never a method
handler): decoding, dispatching, and the flood and malformed-frame signals. -/
def Effect.framing : Effect → Bool
  | .parse _ => true
  | .dispatch _ => true
  | .emit .socketFlooded => true
  | .emit (.malformedMessage _) => true
  | _ => false

/-- The documents the receive handler dispatches for the given segments: a
segment counts when it is not empty, decodes, and decodes to a truthy value. -/
def framesToDispatch (decode : Text → Option JsVal) : List Text → List JsVal
  | [] => []
  | seg :: rest =>
    if seg = [] then framesToDispatch decode rest
    else
      match decode seg with
      | some doc =>
        if doc.truthy then doc :: framesToDispatch decode rest
        else framesToDispatch decode rest
      | none => framesToDispatch decode rest

/-- A chunk of 223 complete submit frames (10258 bytes) and nothing else. -/
def manyFramesChunk : Text := joinFrames (List.replicate 223 submitText)

/-- A chunk of 10241 bytes without a newline. -/
def floodChunk : Text := List.replicate 10241 'a'

/-- A chunk of two complete frames followed by the start of a third. -/
def twoFramesChunk : Text := joinFrames [subscribeText, submitText] ++ "\x7b\"id\":".toList

/-- A chunk whose first frame is an authorize request without `params`. -/
def throwingChunk : Text := joinFrames [authorizeNoParamsText, subscribeText]

/-- The number whose little-endian bytes are given. -/
def ofBytesLE : List Nat → Nat
  | [] => 0
  | b :: bs => b + 256 * ofBytesLE bs

/-- Number of `checkBan` signals. -/
def checkBansOf : List Effect → Nat
  | [] => 0
  | .emit .checkBan :: es => checkBansOf es + 1
  | _ :: es => checkBansOf es

/-- The segments carried by `malformedMessage` signals, in order. -/
def malformedOf : List Effect → List Text
  | [] => []
  | .emit (.malformedMessage message) :: es => message :: malformedOf es
  | _ :: es => malformedOf es

/-- The session `s1` has the remote address and proxy-listener state of `s`,
and its trace extends that of `s` without a `checkBan` signal. -/
def keepsProxyState (s s1 : Session) : Prop :=
  s1.remoteAddress = s.remoteAddress ∧ s1.proxyListenerArmed = s.proxyListenerArmed ∧
    ∃ es, s1.trace = s.trace ++ es ∧ checkBansOf es = 0

/-- The segments that draw a `malformedMessage` signal while the chunk `d` is
processed: none when proxy mode tolerates the chunk, else the non-empty
segments that fail to decode. -/
def malformedSegments (o : Options) (decode : Text → Option JsVal) (d : Text)
    (segs : List Text) : List Text :=
  if o.tcpProxyProtocol && startsWith proxyMarker d then []
  else segs.filter (fun seg => decide (seg ≠ []) && (decode seg).isNone)

/-- Server options with the given banning section. -/
def sampleServerOptions (banning : Option Banning) (tcpProxyProtocol : Bool) : ServerOptions :=
  { banning := banning, connectionTimeout := 600, tcpProxyProtocol := tcpProxyProtocol }

/-- A server that banned host 10.0.0.7 at time 0 and has no client yet. -/
def serverWithBan : Server :=
  { stratumClients := [], count := 0, bannedIPs := [("10.0.0.7", 0)], signals := [] }

/-- A session of worker `w1` that holds extranonce1 `60000001` and difficulty 8. -/
def migratingClient : Session :=
  { Session.fresh 0 (some "10.0.0.7") with
    authorized := .bool true
    workerName := .str "w1"
    workerPass := .str "x"
    extraNonce1 := .str "60000001"
    previousDifficulty := some 4
    difficulty := some 8 }

/-- The decoded frame `{"id": 5, "method": "mining.get_transactions"}`. -/
def getTransactionsFrame : JsVal :=
  .obj [("id", .num 5), ("method", .str "mining.get_transactions")]

/-- The decoded frame `{"id": 3, "method": "mining.authorize", "params": ["w1", "x"]}`. -/
def authorizeFrame : JsVal :=
  .obj [("id", .num 3), ("method", .str "mining.authorize"),
    ("params", .arr [.str "w1", .str "x"])]

/-- A segment that is not JSON. -/
def garbageText : Text := "garbage".toList

/-- A chunk of three complete segments: one that is not JSON, an authorize
request without `params`, and a subscribe request. -/
def garbageThenThrowingChunk : Text :=
  joinFrames [garbageText, authorizeNoParamsText, subscribeText]

/-- A chunk of three complete segments: one that is not JSON, a subscribe
request, and another that is not JSON. -/
def garbageAroundFrameChunk : Text :=
  joinFrames [garbageText, subscribeText, garbageText]

/-- A chunk that begins with the proxy preamble and carries a second line that
is not JSON. -/
def proxyThenGarbageChunk : Text := joinFrames [proxyLine, garbageText]

/-! ## Banning policy: lemmas -/

theorem countShare_other (v : JsVal) (sh : Shares) (hv : v ≠ .bool true) :
    countShare v sh = ⟨sh.valid, sh.invalid + 1⟩ := by
  unfold countShare
  split
  · exact absurd rfl hv
  · rfl

theorem countShare_total (v : JsVal) (sh : Shares) :
    (countShare v sh).valid + (countShare v sh).invalid = sh.valid + sh.invalid + 1 := by
  unfold countShare
  split <;> simp <;> omega

theorem banningEnabled_shares (b : Banning) (v : JsVal) (s : Session) :
    (banningEnabled b v s).2.shares = countShare v s.shares := by
  unfold banningEnabled
  simp only
  split
  · split <;> rfl
  · rfl

theorem banningEnabled_below (b : Banning) (v : JsVal) (s : Session)
    (h : s.shares.valid + s.shares.invalid + 1 < b.checkThreshold) :
    banningEnabled b v s = (false, { s with shares := countShare v s.shares }) := by
  have ht := countShare_total v s.shares
  unfold banningEnabled
  simp only
  rw [if_neg (by omega)]

theorem feedShares_below (b : Banning) (outcomes : List JsVal) :
    ∀ s : Session, s.shares.valid + s.shares.invalid + outcomes.length < b.checkThreshold →
      (feedShares b outcomes s).1 = List.replicate outcomes.length false ∧
      (feedShares b outcomes s).2.trace = s.trace ∧
      (feedShares b outcomes s).2.shares.valid + (feedShares b outcomes s).2.shares.invalid
        = s.shares.valid + s.shares.invalid + outcomes.length := by
  induction outcomes with
  | nil => intro s _; exact ⟨rfl, rfl, rfl⟩
  | cons v vs ih =>
    intro s h
    simp only [List.length_cons] at h
    have hb := banningEnabled_below b v s (by omega)
    have ht := countShare_total v s.shares
    have ih1 := ih { s with shares := countShare v s.shares } (by simp only; omega)
    simp only [feedShares, hb, List.length_cons, List.replicate_succ]
    refine ⟨by rw [ih1.1], ih1.2.1, ?_⟩
    rw [ih1.2.2]; simp only; omega

theorem considerBan_enabled (o : Options) (b : Banning) (v : JsVal) (s : Session)
    (hb : o.banning = some b) (he : b.enabled = true) :
    considerBan o v s = banningEnabled b v s := by
  simp [considerBan, hb, he]

/-! ## Banning policy: claims -/

/-- C2, as stated, fails: with a window of 100 shares and a limit of 57 %, the
100th share of a session that has 43 valid and 56 invalid shares is invalid, so
57 of the last 100 shares are invalid and the exact percentage 100 * 57 / 100
reaches the limit; yet `(57 / 100) * 100` is 8022036836253695 / 2 ^ 47, that
is 56.99999999999999, in double arithmetic: the policy returns false, raises
nothing and leaves the transport open. -/
theorem considerBan_exact_percentage_counterexample :
    (considerBan (sampleOptions (some banning57) false) (.bool false)
        (sessionWithShares 43 56)).2.shares = ⟨43, 57⟩ ∧
    banning57.checkThreshold ≤ 43 + 57 ∧
    banning57.invalidPercent * (43 + 57) ≤ 100 * 57 ∧
    percentBad 57 (43 + 57) = ⟨8022036836253695, 47⟩ ∧
    (considerBan (sampleOptions (some banning57) false) (.bool false)
        (sessionWithShares 43 56)).1 = false ∧
    (considerBan (sampleOptions (some banning57) false) (.bool false)
        (sessionWithShares 43 56)).2.trace = (sessionWithShares 43 56).trace := by
  refine ⟨by decide, by decide, by decide, by decide, by decide, rfl⟩

/-- C2, amended: with banning enabled, feeding an outcome to the policy adds
one to `shares.valid` when the outcome is exactly `true` and to
`shares.invalid` otherwise; it then bans (returns true, raises one
`triggerBan`, destroys the socket) if and only if valid + invalid has reached
`checkThreshold` and the double-precision value of
`(invalid / (valid + invalid)) * 100` is not below `invalidPercent`; otherwise
it returns false and neither raises a signal nor touches the socket.  A fresh
session is never banned by fewer than `checkThreshold` submissions. -/
theorem considerBan_enabled_spec (o : Options) (b : Banning) (v : JsVal) (s : Session)
    (hb : o.banning = some b) (he : b.enabled = true) :
    (v = .bool true →
      (considerBan o v s).2.shares = ⟨s.shares.valid + 1, s.shares.invalid⟩) ∧
    (v ≠ .bool true →
      (considerBan o v s).2.shares = ⟨s.shares.valid, s.shares.invalid + 1⟩) ∧
    ((considerBan o v s).1 = true ↔
      b.checkThreshold
          ≤ (considerBan o v s).2.shares.valid + (considerBan o v s).2.shares.invalid ∧
        (percentBad (considerBan o v s).2.shares.invalid
          ((considerBan o v s).2.shares.valid + (considerBan o v s).2.shares.invalid)).ltNat
            b.invalidPercent = false) ∧
    ((considerBan o v s).1 = true →
      (considerBan o v s).2.trace = s.trace ++
        [.emit (.triggerBan (banReason (considerBan o v s).2.shares.invalid
            ((considerBan o v s).2.shares.valid + (considerBan o v s).2.shares.invalid))),
          .destroy]) ∧
    ((considerBan o v s).1 = false → (considerBan o v s).2.trace = s.trace) ∧
    (∀ (outcomes : List JsVal) (now : Int) (addr : Option String),
      outcomes.length < b.checkThreshold →
        (feedShares b outcomes (Session.fresh now addr)).1
            = List.replicate outcomes.length false ∧
        (feedShares b outcomes (Session.fresh now addr)).2.trace = []) := by
  rw [considerBan_enabled o b v s hb he]
  have hs := banningEnabled_shares b v s
  refine ⟨?_, ?_, ?_, ?_, ?_, ?_⟩
  · intro hv; rw [hs, hv]; rfl
  · intro hv; rw [hs]; exact countShare_other v s.shares hv
  · rw [hs]
    unfold banningEnabled
    simp only
    by_cases h1 : b.checkThreshold ≤ (countShare v s.shares).valid + (countShare v s.shares).invalid
    · rw [if_pos h1]
      cases h2 : (percentBad (countShare v s.shares).invalid
          ((countShare v s.shares).valid + (countShare v s.shares).invalid)).ltNat b.invalidPercent
      · simp [h1]
      · simp
    · rw [if_neg h1]; simp [h1]
  · rw [hs]
    unfold banningEnabled
    simp only
    split
    · split
      · intro h; exact absurd h (by simp)
      · intro _; rfl
    · intro h; exact absurd h (by simp)
  · unfold banningEnabled
    simp only
    split
    · split
      · intro _; rfl
      · intro h; exact absurd h (by simp)
    · intro _; rfl
  · intro outcomes now addr hlen
    have h := feedShares_below b outcomes (Session.fresh now addr)
      (by simpa [Session.fresh] using hlen)
    exact ⟨h.1, h.2.1⟩

/-- Witness for C2: the policy with a window of 2 shares and a 50 % limit, fed
an invalid share by a session holding one invalid share. -/
theorem considerBan_enabled_spec_witness :
    (considerBan (sampleOptions (some banning50) false) (.bool false)
        (sessionWithShares 0 1)).1 = true ∧
    (considerBan (sampleOptions (some banning50) false) (.bool false)
        (sessionWithShares 0 1)).2.trace
      = [.emit (.triggerBan "2 out of the last 2 shares were invalid"), .destroy] := by
  have h := considerBan_enabled_spec (sampleOptions (some banning50) false) banning50
    (.bool false) (sessionWithShares 0 1) rfl rfl
  have hban : (considerBan (sampleOptions (some banning50) false) (.bool false)
      (sessionWithShares 0 1)).1 = true := by decide
  exact ⟨hban, (h.2.2.2.1 hban).trans rfl⟩

/-- C3: the reset misses the session.  With a window of 2 shares and a 50 %
limit, a session holding one valid share submits a second valid share: the
threshold is reached with 0 % invalid, the policy returns false and leaves the
socket alone, but `this.shares = {valid: 0, invalid: 0}` lands on the global
object and the session keeps `shares.valid = 2`. -/
theorem banningEnabled_reset_misses_session :
    (considerBan (sampleOptions (some banning50) false) (.bool true)
        (sessionWithShares 1 0)).1 = false ∧
    (considerBan (sampleOptions (some banning50) false) (.bool true)
        (sessionWithShares 1 0)).2.shares = ⟨2, 0⟩ ∧
    (considerBan (sampleOptions (some banning50) false) (.bool true)
        (sessionWithShares 1 0)).2.globalShares = some ⟨0, 0⟩ ∧
    (considerBan (sampleOptions (some banning50) false) (.bool true)
        (sessionWithShares 1 0)).2.trace = [] := by
  refine ⟨by decide, by decide, by decide, rfl⟩

/-! ## Submit path -/

theorem banningEnabled_cases (b : Banning) (v : JsVal) (s : Session) :
    ((banningEnabled b v s).1 = false ∧ (banningEnabled b v s).2.trace = s.trace) ∨
    ((banningEnabled b v s).1 = true ∧ ∃ reason, (banningEnabled b v s).2.trace
      = s.trace ++ [.emit (.triggerBan reason), .destroy]) := by
  unfold banningEnabled
  simp only
  split
  · split
    · exact Or.inl ⟨rfl, rfl⟩
    · exact Or.inr ⟨rfl, _, rfl⟩
  · exact Or.inl ⟨rfl, rfl⟩

theorem considerBan_cases (o : Options) (v : JsVal) (s : Session) :
    ((considerBan o v s).1 = false ∧ (considerBan o v s).2.trace = s.trace) ∨
    ((considerBan o v s).1 = true ∧ ∃ reason, (considerBan o v s).2.trace
      = s.trace ++ [.emit (.triggerBan reason), .destroy]) := by
  unfold considerBan
  cases o.banning with
  | none => exact Or.inl ⟨rfl, rfl⟩
  | some b =>
    simp only
    by_cases he : b.enabled = true
    · rw [if_pos he]; exact banningEnabled_cases b v s
    · rw [if_neg he]; exact Or.inl ⟨rfl, rfl⟩

theorem considerBan_false_trace (o : Options) (v : JsVal) (s : Session)
    (h : (considerBan o v s).1 = false) : (considerBan o v s).2.trace = s.trace := by
  rcases considerBan_cases o v s with ⟨_, ht⟩ | ⟨h1, _⟩
  · exact ht
  · rw [h] at h1; exact absurd h1 (by simp)

theorem considerBan_true_trace (o : Options) (v : JsVal) (s : Session)
    (h : (considerBan o v s).1 = true) :
    ∃ reason, (considerBan o v s).2.trace
      = s.trace ++ [.emit (.triggerBan reason), .destroy] := by
  rcases considerBan_cases o v s with ⟨h1, _⟩ | ⟨_, ht⟩
  · rw [h] at h1; exact absurd h1 (by simp)
  · exact ht

theorem considerBan_trace (o : Options) (v : JsVal) (s : Session) :
    ∃ tail, (considerBan o v s).2.trace = s.trace ++ tail ∧
      (tail = [] ∨ ∃ reason, tail = [.emit (.triggerBan reason), .destroy]) := by
  cases h : (considerBan o v s).1
  · exact ⟨[], by rw [considerBan_false_trace o v s h, List.append_nil], Or.inl rfl⟩
  · obtain ⟨reason, hr⟩ := considerBan_true_trace o v s h
    exact ⟨_, hr, Or.inr ⟨reason, rfl⟩⟩

theorem handleMessage_submit (o : Options) (now : Int) (message : JsVal) (s : Session)
    (hm : message.get "method" = .str "mining.submit") :
    handleMessage o now message s
      = .ok (handleSubmit o message { s with lastActivity := now }) := by
  unfold handleMessage
  rw [hm]
  simp

/-- C1, as stated, fails: an authorized session whose `extraNonce1` has been
assigned the empty string answers a `mining.submit` with error 25 and raises
no `submit` signal. -/
theorem handleSubmit_empty_extraNonce1_counterexample :
    sessionEmptyNonce.authorized.truthy = true ∧
    sessionEmptyNonce.extraNonce1 = .str "" ∧
    handleMessage (sampleOptions none false) 5 submitFrame sessionEmptyNonce
      = .ok ({ sessionEmptyNonce with lastActivity := 5 }.log
          [.write [reply (.num 7) .null (.arr [.num 25, .str "not subscribed", .null])]]) := by
  refine ⟨by decide, rfl, rfl⟩

/-- C1, amended: a `mining.submit` frame raises the `submit` signal if and only
if `authorized` is truthy and `extraNonce1` is truthy (assigned and not empty).
Otherwise the session writes exactly one reply with the request id and result
null, carrying error `[24, "unauthorized worker", null]` when `authorized` is
falsy and `[25, "not subscribed", null]` when only `extraNonce1` is falsy,
raises no `submit` signal and feeds the banning policy one failed share (whose
only possible further effects are a `triggerBan` signal and the destruction of
the socket). -/
theorem handleMessage_submit_spec (o : Options) (now : Int) (message : JsVal) (s : Session)
    (hm : message.get "method" = .str "mining.submit") :
    (s.authorized.truthy = true → s.extraNonce1.truthy = true →
      handleMessage o now message s
        = .ok ({ s with lastActivity := now }.log [.emit (.submit message)])) ∧
    (s.authorized.truthy = false →
      handleMessage o now message s
        = .ok (considerBan o (.bool false)
            ({ s with lastActivity := now }.log
              [.write [reply (message.get "id") .null
                (.arr [.num 24, .str "unauthorized worker", .null])]])).2) ∧
    (s.authorized.truthy = true → s.extraNonce1.truthy = false →
      handleMessage o now message s
        = .ok (considerBan o (.bool false)
            ({ s with lastActivity := now }.log
              [.write [reply (message.get "id") .null
                (.arr [.num 25, .str "not subscribed", .null])]])).2) ∧
    (∃ es, (outcome (handleMessage o now message s)).trace = s.trace ++ es ∧
      ((∃ m, Effect.emit (.submit m) ∈ es) ↔
        (s.authorized.truthy = true ∧ s.extraNonce1.truthy = true)) ∧
      (¬ (s.authorized.truthy = true ∧ s.extraNonce1.truthy = true) →
        ∃ error tail, es = .write [reply (message.get "id") .null error] :: tail ∧
          (tail = [] ∨ ∃ reason, tail = [.emit (.triggerBan reason), .destroy]))) := by
  rw [handleMessage_submit o now message s hm]
  refine ⟨?_, ?_, ?_, ?_⟩
  · intro ha hn
    simp [handleSubmit, ha, hn]
  · intro ha
    simp [handleSubmit, ha, sendJson, errorTriple]
  · intro ha hn
    simp [handleSubmit, ha, hn, sendJson, errorTriple]
  · cases ha : s.authorized.truthy
    · obtain ⟨tail, ht, hshape⟩ := considerBan_trace o (.bool false)
        (sendJson [reply (message.get "id") .null (errorTriple 24 "unauthorized worker")]
          { s with lastActivity := now })
      refine ⟨.write [reply (message.get "id") .null (errorTriple 24 "unauthorized worker")]
        :: tail, ?_, ?_, ?_⟩
      · simp only [outcome, handleSubmit, ha, Bool.not_false, if_true]
        rw [ht]; simp [sendJson, Session.log]
      · rcases hshape with h | ⟨r, h⟩ <;> subst h <;> simp
      · intro _; exact ⟨_, tail, rfl, hshape⟩
    · cases hn : s.extraNonce1.truthy
      · obtain ⟨tail, ht, hshape⟩ := considerBan_trace o (.bool false)
          (sendJson [reply (message.get "id") .null (errorTriple 25 "not subscribed")]
            { s with lastActivity := now })
        refine ⟨.write [reply (message.get "id") .null (errorTriple 25 "not subscribed")]
          :: tail, ?_, ?_, ?_⟩
        · simp only [outcome, handleSubmit, ha, hn, Bool.not_false, Bool.not_true, if_true]
          rw [if_neg (by simp), ht]; simp [sendJson, Session.log]
        · rcases hshape with h | ⟨r, h⟩ <;> subst h <;> simp
        · intro _; exact ⟨_, tail, rfl, hshape⟩
      · refine ⟨[.emit (.submit message)], ?_, ?_, ?_⟩
        · simp [outcome, handleSubmit, ha, hn, Session.log]
        · simp
        · intro h; exact absurd ⟨rfl, rfl⟩ h

/-- Witness for C1: a fresh (unauthorized) session receives a submit frame. -/
theorem handleMessage_submit_spec_witness :
    handleMessage (sampleOptions none false) 5 submitFrame (Session.fresh 0 none)
      = .ok ({ Session.fresh 0 none with lastActivity := 5 }.log
          [.write [reply (.num 7) .null (.arr [.num 24, .str "unauthorized worker", .null])]]) :=
  ((handleMessage_submit_spec (sampleOptions none false) 5 submitFrame (Session.fresh 0 none)
    rfl).2.1 rfl).trans rfl

/-- C4: for an authorized and subscribed session a submit frame raises the
`submit` signal, and when the collaborator completes with `(error, result)`, in
whatever state the session then is, the session writes the reply
`{id, result, error}` with `result` and `error` as given exactly when the
banning policy fed `result` does not ban; when the policy bans, the only
effects are the `triggerBan` signal and the destruction of the socket, and
nothing is written. -/
theorem submitCompletion_spec (o : Options) (message error result : JsVal) (s t : Session)
    (ha : s.authorized.truthy = true) (hn : s.extraNonce1.truthy = true) :
    handleSubmit o message s = s.log [.emit (.submit message)] ∧
    ((considerBan o result t).1 = false →
      submitCompletion o message error result t
          = (considerBan o result t).2.log [.write [reply (message.get "id") result error]] ∧
        (submitCompletion o message error result t).trace
          = t.trace ++ [.write [reply (message.get "id") result error]]) ∧
    ((considerBan o result t).1 = true →
      submitCompletion o message error result t = (considerBan o result t).2 ∧
        ∃ reason, (submitCompletion o message error result t).trace
          = t.trace ++ [.emit (.triggerBan reason), .destroy]) := by
  refine ⟨by simp [handleSubmit, ha, hn], ?_, ?_⟩
  · intro h
    have ht := considerBan_false_trace o result t h
    constructor
    · simp [submitCompletion, h, sendJson]
    · simp [submitCompletion, h, sendJson, Session.log, ht]
  · intro h
    obtain ⟨reason, hr⟩ := considerBan_true_trace o result t h
    constructor
    · simp [submitCompletion, h]
    · exact ⟨reason, by simp [submitCompletion, h, hr]⟩

/-- Witness for C4: a valid share completes on a session without banning. -/
theorem submitCompletion_spec_witness :
    handleSubmit (sampleOptions none false) submitFrame sessionReady
      = sessionReady.log [.emit (.submit submitFrame)] ∧
    (submitCompletion (sampleOptions none false) submitFrame .null (.bool true)
        sessionReady).trace
      = [.write [reply (.num 7) (.bool true) .null]] := by
  have h := submitCompletion_spec (sampleOptions none false) submitFrame .null (.bool true)
    sessionReady sessionReady (by decide) (by decide)
  exact ⟨h.1, (h.2.1 rfl).2.trans rfl⟩

/-! ## Difficulty and job push -/

/-- C9: `sendDifficulty(d)` with `d` equal to the current difficulty returns
false, writes nothing and changes nothing; with any other `d` it moves the
current difficulty to `previousDifficulty`, makes `d` current, writes exactly
one `mining.set_difficulty` notification with params `[d]` and returns true.
A second `sendDifficulty(d)` right after the first is a no-op returning
false. -/
theorem sendDifficulty_spec (d : ℚ) (s : Session) :
    (s.difficulty = some d → sendDifficulty d s = (false, s)) ∧
    (s.difficulty ≠ some d →
      sendDifficulty d s
        = (true,
            { s with
              previousDifficulty := s.difficulty
              difficulty := some d
              trace := s.trace ++
                [.write [.obj [("id", .null), ("method", .str "mining.set_difficulty"),
                  ("params", .arr [.num d])]]] })) ∧
    sendDifficulty d (sendDifficulty d s).2 = (false, (sendDifficulty d s).2) := by
  refine ⟨?_, ?_, ?_⟩
  · intro h
    simp [sendDifficulty, h]
  · intro h
    have h1 : ¬ (some d = s.difficulty) := fun e => h e.symm
    simp [sendDifficulty, h1, sendJson, Session.log, setDifficultyDoc, notification]
  · by_cases h : some d = s.difficulty
    · simp [sendDifficulty, h]
    · simp [sendDifficulty, h, sendJson, Session.log]

/-- Witness for C9: a session without a difficulty is sent difficulty 16. -/
theorem sendDifficulty_spec_witness :
    sendDifficulty 16 sessionReady
      = (true,
          { sessionReady with
            previousDifficulty := none
            difficulty := some 16
            trace :=
              [.write [.obj [("id", .null), ("method", .str "mining.set_difficulty"),
                ("params", .arr [.num 16])]]] }) :=
  ((sendDifficulty_spec 16 sessionReady).2.1 (by simp [sessionReady, Session.fresh])).trans rfl

/-- C10: on a session whose inactivity is within `connectionTimeout`,
`enqueueNextDifficulty(d)` followed by `sendMiningJob(params)` behaves as
follows.  If `d` differs from the current difficulty, the session writes the
`mining.set_difficulty` notification for `d`, raises one `difficultyChanged`
signal and then writes the `mining.notify` notification, and `d` is the
current difficulty.  If `d` is the current difficulty, it writes only the
`mining.notify` notification.  Either way no pending difficulty remains, and
a second `sendMiningJob` (again within the timeout) writes only its
`mining.notify` notification. -/
theorem sendMiningJob_after_enqueue (o : Options) (now now2 : Int) (d : ℚ)
    (params params2 : JsVal) (s : Session)
    (h : now - s.lastActivity ≤ o.connectionTimeout * 1000)
    (h2 : now2 - s.lastActivity ≤ o.connectionTimeout * 1000) :
    (s.difficulty ≠ some d →
      sendMiningJob o now params (enqueueNextDifficulty (some d) s).2
        = { s with
            previousDifficulty := s.difficulty
            difficulty := some d
            pendingDifficulty := none
            trace := s.trace ++
              [.write [.obj [("id", .null), ("method", .str "mining.set_difficulty"),
                ("params", .arr [.num d])]],
               .emit (.difficultyChanged (some d)),
               .write [.obj [("id", .null), ("method", .str "mining.notify"),
                ("params", params)]]] }) ∧
    (s.difficulty = some d →
      sendMiningJob o now params (enqueueNextDifficulty (some d) s).2
        = { s with
            pendingDifficulty := none
            trace := s.trace ++
              [.write [.obj [("id", .null), ("method", .str "mining.notify"),
                ("params", params)]]] }) ∧
    (sendMiningJob o now params (enqueueNextDifficulty (some d) s).2).pendingDifficulty
      = none ∧
    sendMiningJob o now2 params2
        (sendMiningJob o now params (enqueueNextDifficulty (some d) s).2)
      = (sendMiningJob o now params (enqueueNextDifficulty (some d) s).2).log
          [.write [.obj [("id", .null), ("method", .str "mining.notify"),
            ("params", params2)]]] := by
  have hn : ¬ (now - s.lastActivity > (o.connectionTimeout : Int) * 1000) := not_lt.mpr h
  have hn2 : ¬ (now2 - s.lastActivity > (o.connectionTimeout : Int) * 1000) := not_lt.mpr h2
  by_cases hd : some d = s.difficulty
  · have hd1 : s.difficulty = some d := hd.symm
    have hs : sendDifficulty d s = (false, s) := by simp [sendDifficulty, hd]
    have hq : sendDifficulty d { s with pendingDifficulty := some d }
        = (false, { s with pendingDifficulty := some d }) := by simp [sendDifficulty, hd]
    have key : sendMiningJob o now params (enqueueNextDifficulty (some d) s).2
        = { s with
            pendingDifficulty := none
            trace := s.trace ++
              [.write [.obj [("id", .null), ("method", .str "mining.notify"),
                ("params", params)]]] } := by
      simp only [sendMiningJob, enqueueNextDifficulty, hn, if_false, hq]
      simp [sendJson, Session.log, notification]
    refine ⟨fun hne => absurd hd1 hne, fun _ => key, ?_, ?_⟩
    · rw [key]
    · rw [key]
      simp only [sendMiningJob, hn2, if_false]
      simp [sendJson, Session.log, notification]
  · have hd1 : s.difficulty ≠ some d := fun e => hd e.symm
    have key : sendMiningJob o now params (enqueueNextDifficulty (some d) s).2
        = { s with
            previousDifficulty := s.difficulty
            difficulty := some d
            pendingDifficulty := none
            trace := s.trace ++
              [.write [.obj [("id", .null), ("method", .str "mining.set_difficulty"),
                ("params", .arr [.num d])]],
               .emit (.difficultyChanged (some d)),
               .write [.obj [("id", .null), ("method", .str "mining.notify"),
                ("params", params)]]] } := by
      simp [sendMiningJob, enqueueNextDifficulty, sendDifficulty, hd, hn, sendJson,
        Session.log, notification, setDifficultyDoc]
    refine ⟨fun _ => key, fun he => absurd he hd1, ?_, ?_⟩
    · rw [key]
    · rw [key]
      simp only [sendMiningJob, hn2, if_false]
      simp [sendJson, Session.log, notification]

/-- Witness for C10: difficulty 16 is queued on a session without a difficulty
and a job is pushed 1 s after its last activity. -/
theorem sendMiningJob_after_enqueue_witness :
    sendMiningJob (sampleOptions none false) 1000 (.arr [.str "job1"])
        (enqueueNextDifficulty (some 16) sessionReady).2
      = { sessionReady with
          previousDifficulty := none
          difficulty := some 16
          pendingDifficulty := none
          trace :=
            [.write [.obj [("id", .null), ("method", .str "mining.set_difficulty"),
              ("params", .arr [.num 16])]],
             .emit (.difficultyChanged (some 16)),
             .write [.obj [("id", .null), ("method", .str "mining.notify"),
              ("params", .arr [.str "job1"])]]] } :=
  ((sendMiningJob_after_enqueue (sampleOptions none false) 1000 2000 16 (.arr [.str "job1"])
    (.arr [.str "job2"]) sessionReady (by decide) (by decide)).1
      (by simp [sessionReady, Session.fresh])).trans rfl

/-! ## Receive handler: splitting -/

theorem splitOn_of_not_mem (sep : Char) (t : Text) (h : sep ∉ t) : splitOn sep t = [t] := by
  induction t with
  | nil => rfl
  | cons c cs ih =>
    have hc : c ≠ sep := fun e => h (by simp [e])
    have hcs : sep ∉ cs := fun e => h (by simp [e])
    rw [splitOn, if_neg hc, ih hcs]

theorem splitOn_frame (sep : Char) (seg t : Text) (h : sep ∉ seg) :
    splitOn sep (seg ++ sep :: t) = seg :: splitOn sep t := by
  induction seg with
  | nil => simp [splitOn]
  | cons c cs ih =>
    have hc : c ≠ sep := fun e => h (by simp [e])
    have hcs : sep ∉ cs := fun e => h (by simp [e])
    show splitOn sep (c :: (cs ++ sep :: t)) = _
    rw [splitOn, if_neg hc, ih hcs]

theorem splitOn_joinFrames (segs : List Text) (rest : Text)
    (hsegs : ∀ seg ∈ segs, '\n' ∉ seg) (hrest : '\n' ∉ rest) :
    splitOn '\n' (joinFrames segs ++ rest) = segs ++ [rest] := by
  induction segs with
  | nil => simpa [joinFrames] using splitOn_of_not_mem '\n' rest hrest
  | cons seg segs ih =>
    have h1 : '\n' ∉ seg := hsegs seg (by simp)
    have h2 : ∀ x ∈ segs, '\n' ∉ x := fun x hx => hsegs x (by simp [hx])
    show splitOn '\n' ((seg ++ '\n' :: joinFrames segs) ++ rest) = _
    rw [List.append_assoc, List.cons_append, splitOn_frame '\n' seg _ h1, ih h2]
    rfl

theorem joinFrames_getLast (segs : List Text) (rest : Text) (hne : segs ≠ [])
    (hrest : '\n' ∉ rest) :
    (joinFrames segs ++ rest).getLast? = some '\n' ↔ rest = [] := by
  constructor
  · intro h
    by_contra hr
    rw [List.getLast?_append_of_ne_nil _ hr] at h
    exact hrest (List.mem_of_getLast?_eq_some h)
  · intro h
    subst h
    rw [List.append_nil]
    induction segs with
    | nil => exact absurd rfl hne
    | cons seg segs ih =>
      cases segs with
      | nil => simp [joinFrames]
      | cons seg2 segs2 =>
        have := ih (by simp)
        show (seg ++ '\n' :: joinFrames (seg2 :: segs2)).getLast? = _
        rw [← List.singleton_append, ← List.append_assoc,
          List.getLast?_append_of_ne_nil _ (by simp [joinFrames])]
        exact this

theorem mem_joinFrames (segs : List Text) (rest : Text) (hne : segs ≠ []) :
    '\n' ∈ joinFrames segs ++ rest := by
  cases segs with
  | nil => exact absurd rfl hne
  | cons seg segs => simp [joinFrames]

/-! ## Receive handler: traces -/

theorem parsesOf_append (xs ys : List Effect) :
    parsesOf (xs ++ ys) = parsesOf xs ++ parsesOf ys := by
  induction xs with
  | nil => rfl
  | cons e es ih => cases e <;> simp [parsesOf, ih]

theorem floodsOf_append (xs ys : List Effect) :
    floodsOf (xs ++ ys) = floodsOf xs + floodsOf ys := by
  induction xs with
  | nil => simp [floodsOf]
  | cons e es ih =>
    cases e with
    | emit ev => cases ev <;> simp [floodsOf, ih]; omega
    | _ => simp [floodsOf, ih]

theorem parsesOf_of_not_framing (es : List Effect) (h : ∀ e ∈ es, e.framing = false) :
    parsesOf es = [] := by
  induction es with
  | nil => rfl
  | cons e es ih =>
    have he := h e (by simp)
    have hes := ih (fun x hx => h x (by simp [hx]))
    cases e <;> simp_all [parsesOf, Effect.framing]

theorem floodsOf_of_not_framing (es : List Effect) (h : ∀ e ∈ es, e.framing = false) :
    floodsOf es = 0 := by
  induction es with
  | nil => rfl
  | cons e es ih =>
    have he := h e (by simp)
    have hes := ih (fun x hx => h x (by simp [hx]))
    cases e with
    | emit ev => cases ev <;> simp_all [floodsOf, Effect.framing]
    | _ => simp_all [floodsOf, Effect.framing]

theorem handleSubmit_trace (o : Options) (message : JsVal) (s : Session) :
    ∃ es, (handleSubmit o message s).trace = s.trace ++ es ∧
      ∀ e ∈ es, e.framing = false := by
  unfold handleSubmit
  split_ifs
  · obtain ⟨tail, ht, hshape⟩ := considerBan_trace o (.bool false)
      (sendJson [reply (message.get "id") .null (errorTriple 24 "unauthorized worker")] s)
    refine ⟨.write [reply (message.get "id") .null (errorTriple 24 "unauthorized worker")]
      :: tail, ?_, ?_⟩
    · rw [ht]; simp [sendJson, Session.log]
    · rcases hshape with h | ⟨r, h⟩ <;> subst h <;> simp [Effect.framing]
  · obtain ⟨tail, ht, hshape⟩ := considerBan_trace o (.bool false)
      (sendJson [reply (message.get "id") .null (errorTriple 25 "not subscribed")] s)
    refine ⟨.write [reply (message.get "id") .null (errorTriple 25 "not subscribed")]
      :: tail, ?_, ?_⟩
    · rw [ht]; simp [sendJson, Session.log]
    · rcases hshape with h | ⟨r, h⟩ <;> subst h <;> simp [Effect.framing]
  · exact ⟨[.emit (.submit message)], rfl, by simp [Effect.framing]⟩

theorem handleAuthorize_trace (o : Options) (message : JsVal) (replyToSocket : Bool)
    (s : Session) :
    ∃ es, (outcome (handleAuthorize o message replyToSocket s)).trace = s.trace ++ es ∧
      ∀ e ∈ es, e.framing = false := by
  unfold handleAuthorize
  split
  · exact ⟨[_], rfl, by simp [Effect.framing]⟩
  · exact ⟨[], by simp [outcome], by simp⟩

theorem handleMessage_trace (o : Options) (now : Int) (message : JsVal) (s : Session) :
    ∃ es, (outcome (handleMessage o now message s)).trace = s.trace ++ es ∧
      ∀ e ∈ es, e.framing = false := by
  unfold handleMessage
  split
  · split_ifs
    · exact ⟨[.emit (.subscription message)], by simp [outcome, handleSubscribe, Session.log,
        Session.underscoreAuthorized, JsVal.truthy], by simp [Effect.framing]⟩
    · exact handleAuthorize_trace o message true s
    · exact handleSubmit_trace o message { s with lastActivity := now }
    · exact ⟨[_], rfl, by simp [Effect.framing]⟩
    · exact ⟨[_], rfl, by simp [Effect.framing]⟩
    · exact ⟨[_], rfl, by simp [Effect.framing]⟩
  · exact ⟨[_], rfl, by simp [Effect.framing]⟩

theorem handleMessage_ok (o : Options) (now : Int) (message : JsVal) (s : Session)
    (h : handlerThrows message = false) : ∃ s1, handleMessage o now message s = .ok s1 := by
  unfold handlerThrows at h
  unfold handleMessage
  split
  · rename_i method hm
    rw [hm] at h
    simp only at h
    split_ifs with h1 h2
    · exact ⟨_, rfl⟩
    · simp only [h2, decide_True, Bool.true_and, Option.isNone_eq_false_iff] at h
      unfold handleAuthorize
      cases h0 : (message.get "params").index 0 with
      | none => simp [h0] at h
      | some name =>
        have h1 : ∃ pass, (message.get "params").index 1 = some pass := by
          revert h0
          unfold JsVal.index
          split <;> simp
        obtain ⟨pass, hp⟩ := h1
        rw [hp]
        exact ⟨_, rfl⟩
    · exact ⟨_, rfl⟩
    · exact ⟨_, rfl⟩
    · exact ⟨_, rfl⟩
    · exact ⟨_, rfl⟩
  · exact ⟨_, rfl⟩

theorem processMessage_trace (o : Options) (decode : Text → Option JsVal) (now : Int)
    (d message : Text) (s : Session) :
    ∃ es, (outcome (processMessage o decode now d message s)).trace = s.trace ++ es ∧
      parsesOf es = (if message = [] then [] else [message]) ∧ floodsOf es = 0 := by
  unfold processMessage
  by_cases hm : message = []
  · rw [if_pos hm, if_pos hm]
    exact ⟨[], by simp [outcome], rfl, rfl⟩
  · rw [if_neg hm, if_neg hm]
    simp only
    split
    · split_ifs
      · exact ⟨[.parse message, .emit (.malformedMessage message), .destroy],
          by simp [outcome, Session.log], rfl, rfl⟩
      · exact ⟨[.parse message], by simp [outcome, Session.log], rfl, rfl⟩
    · rename_i messageJson _
      split_ifs
      · obtain ⟨es, ht, hq⟩ := handleMessage_trace o now messageJson
          (s.log [.parse message, .dispatch messageJson])
        refine ⟨.parse message :: .dispatch messageJson :: es, ?_, ?_, ?_⟩
        · simp only [Session.log, List.append_assoc, List.cons_append, List.nil_append] at ht ⊢
          exact ht
        · simp [parsesOf, parsesOf_of_not_framing es hq]
        · simp [floodsOf, floodsOf_of_not_framing es hq]
      · exact ⟨[.parse message], by simp [outcome, Session.log], rfl, rfl⟩

theorem processMessages_trace (o : Options) (decode : Text → Option JsVal) (now : Int)
    (d : Text) (messages : List Text) :
    ∀ s : Session, ∃ es,
      (outcome (processMessages o decode now d messages s)).trace = s.trace ++ es ∧
      floodsOf es = 0 ∧
      ((∃ s1, processMessages o decode now d messages s = .ok s1) →
        parsesOf es = messages.filter (fun m => decide (m ≠ []))) := by
  induction messages with
  | nil => intro s; exact ⟨[], by simp [processMessages, outcome], rfl, fun _ => rfl⟩
  | cons m ms ih =>
    intro s
    obtain ⟨es1, ht1, hp1, hf1⟩ := processMessage_trace o decode now d m s
    unfold processMessages
    cases hpm : processMessage o decode now d m s with
    | error e =>
      rw [hpm] at ht1
      exact ⟨es1, ht1, hf1, fun ⟨s1, hs1⟩ => by simp at hs1⟩
    | ok s1 =>
      rw [hpm] at ht1
      simp only [outcome] at ht1
      obtain ⟨es2, ht2, hf2, hp2⟩ := ih s1
      refine ⟨es1 ++ es2, ?_, ?_, ?_⟩
      · simp only; rw [ht2, ht1, List.append_assoc]
      · rw [floodsOf_append, hf1, hf2]
      · intro hok
        rw [parsesOf_append, hp1, hp2 hok]
        by_cases hm : m = [] <;> simp [hm]

theorem processMessages_ok (o : Options) (decode : Text → Option JsVal) (now : Int)
    (d : Text) (messages : List Text)
    (h : ∀ m ∈ messages, ∀ doc, decode m = some doc → handlerThrows doc = false) :
    ∀ s : Session, ∃ s1, processMessages o decode now d messages s = .ok s1 := by
  induction messages with
  | nil => intro s; exact ⟨s, rfl⟩
  | cons m ms ih =>
    intro s
    have hm : ∃ s1, processMessage o decode now d m s = .ok s1 := by
      unfold processMessage
      by_cases hm : m = []
      · rw [if_pos hm]; exact ⟨_, rfl⟩
      · rw [if_neg hm]
        simp only
        cases hdoc : decode m with
        | none =>
          simp only
          by_cases hp : (!o.tcpProxyProtocol || !startsWith proxyMarker d) = true
          · rw [if_pos hp]; exact ⟨_, rfl⟩
          · rw [if_neg hp]; exact ⟨_, rfl⟩
        | some doc =>
          simp only
          by_cases ht : doc.truthy = true
          · rw [if_pos ht]
            exact handleMessage_ok o now doc _ (h m (by simp) doc hdoc)
          · rw [if_neg ht]; exact ⟨_, rfl⟩
    obtain ⟨s1, hs1⟩ := hm
    obtain ⟨s2, hs2⟩ := ih (fun x hx => h x (by simp [hx])) s1
    exact ⟨s2, by simp [processMessages, hs1, hs2]⟩

theorem processMessages_append_empty (o : Options) (decode : Text → Option JsVal)
    (now : Int) (d : Text) (messages : List Text) :
    ∀ s : Session, processMessages o decode now d (messages ++ [[]]) s
      = processMessages o decode now d messages s := by
  induction messages with
  | nil => intro s; simp [processMessages, processMessage]
  | cons m ms ih =>
    intro s
    simp only [List.cons_append, processMessages]
    cases processMessage o decode now d m s with
    | error e => rfl
    | ok s1 => exact ih s1

/-! ## Receive handler: claims -/

theorem dispatchesOf_append (xs ys : List Effect) :
    dispatchesOf (xs ++ ys) = dispatchesOf xs ++ dispatchesOf ys := by
  induction xs with
  | nil => rfl
  | cons e es ih => cases e <;> simp [dispatchesOf, ih]

theorem dispatchesOf_of_not_framing (es : List Effect) (h : ∀ e ∈ es, e.framing = false) :
    dispatchesOf es = [] := by
  induction es with
  | nil => rfl
  | cons e es ih =>
    have he := h e (by simp)
    have hes := ih (fun x hx => h x (by simp [hx]))
    cases e <;> simp_all [dispatchesOf, Effect.framing]

theorem processMessage_dispatches (o : Options) (decode : Text → Option JsVal) (now : Int)
    (d message : Text) (s : Session) :
    dispatchesOf (outcome (processMessage o decode now d message s)).trace
      = dispatchesOf s.trace ++ framesToDispatch decode [message] := by
  unfold processMessage
  by_cases hm : message = []
  · simp [hm, outcome, framesToDispatch]
  · rw [if_neg hm]
    simp only [framesToDispatch, if_neg hm]
    cases hdoc : decode message with
    | none =>
      simp only
      split_ifs <;> simp [outcome, Session.log, dispatchesOf_append, dispatchesOf]
    | some doc =>
      simp only
      by_cases ht : doc.truthy = true
      · rw [if_pos ht, if_pos ht]
        obtain ⟨es, hes, hq⟩ := handleMessage_trace o now doc
          (s.log [.parse message, .dispatch doc])
        simp only [Session.log, List.append_assoc, List.cons_append, List.nil_append] at hes ⊢
        rw [hes]
        simp [dispatchesOf_append, dispatchesOf, dispatchesOf_of_not_framing es hq]
      · rw [if_neg ht, if_neg ht]
        simp [outcome, Session.log, dispatchesOf_append, dispatchesOf]

theorem framesToDispatch_cons (decode : Text → Option JsVal) (m : Text) (ms : List Text) :
    framesToDispatch decode (m :: ms)
      = framesToDispatch decode [m] ++ framesToDispatch decode ms := by
  simp only [framesToDispatch]
  split_ifs
  · rfl
  · cases decode m with
    | none => rfl
    | some doc =>
      simp only
      split_ifs <;> rfl

theorem processMessages_dispatches (o : Options) (decode : Text → Option JsVal) (now : Int)
    (d : Text) (messages : List Text) :
    ∀ s s1 : Session, processMessages o decode now d messages s = .ok s1 →
      dispatchesOf s1.trace = dispatchesOf s.trace ++ framesToDispatch decode messages := by
  induction messages with
  | nil =>
    intro s s1 h
    simp only [processMessages, Except.ok.injEq] at h
    subst h
    simp [framesToDispatch]
  | cons m ms ih =>
    intro s s1 h
    have hd := processMessage_dispatches o decode now d m s
    unfold processMessages at h
    cases hpm : processMessage o decode now d m s with
    | error e => rw [hpm] at h; simp at h
    | ok s2 =>
      rw [hpm] at h hd
      simp only [outcome] at h hd
      rw [ih s2 s1 h, hd, framesToDispatch_cons decode m ms, List.append_assoc]

theorem byteLength_append (xs ys : Text) :
    byteLength (xs ++ ys) = byteLength xs + byteLength ys := by
  induction xs with
  | nil => simp [byteLength]
  | cons c cs ih => simp [byteLength, ih]; omega

theorem byteLength_replicate_a (n : Nat) : byteLength (List.replicate n 'a') = n := by
  induction n with
  | zero => rfl
  | succ k ih =>
    rw [List.replicate_succ, byteLength, ih]
    have : Char.utf8Size 'a' = 1 := by decide
    omega

theorem byteLength_joinFrames_replicate (n : Nat) (seg : Text) :
    byteLength (joinFrames (List.replicate n seg)) = n * (byteLength seg + 1) := by
  induction n with
  | zero => simp [joinFrames, byteLength]
  | succ k ih =>
    have h1 : Char.utf8Size '\n' = 1 := by decide
    rw [List.replicate_succ, joinFrames, byteLength_append, byteLength, ih, h1]
    ring

theorem onData_of_flood (o : Options) (decode : Text → Option JsVal) (now : Int) (d : Text)
    (s : Session) (h : byteLength (s.dataBuffer ++ d) > 10240) :
    onData o decode now d s
      = .ok { s with dataBuffer := [], trace := s.trace ++ [.emit .socketFlooded, .destroy] } := by
  unfold onData
  simp only
  rw [if_pos h]
  rfl

/-- What the receive handler does with a text within the cap that splits into
the complete segments `segs` and the unterminated remainder `rest`. -/
theorem onData_of_frames (o : Options) (decode : Text → Option JsVal) (now : Int) (d : Text)
    (s : Session) (segs : List Text) (rest : Text)
    (htext : s.dataBuffer ++ d = joinFrames segs ++ rest)
    (hsegs : ∀ seg ∈ segs, '\n' ∉ seg) (hrest : '\n' ∉ rest)
    (hcap : byteLength (s.dataBuffer ++ d) ≤ 10240) :
    onData o decode now d s
      = match processMessages o decode now d segs { s with dataBuffer := s.dataBuffer ++ d } with
        | .ok s2 => .ok { s2 with dataBuffer := rest }
        | .error e => .error e := by
  unfold onData
  simp only
  rw [if_neg (by omega)]
  by_cases hne : segs = []
  · subst hne
    simp only [joinFrames, List.nil_append] at htext
    rw [htext, if_neg hrest]
    simp [processMessages]
  · have hmem : '\n' ∈ s.dataBuffer ++ d := by rw [htext]; exact mem_joinFrames segs rest hne
    rw [if_pos hmem]
    have hsplit : splitOn '\n' (s.dataBuffer ++ d) = segs ++ [rest] := by
      rw [htext]; exact splitOn_joinFrames segs rest hsegs hrest
    have hlast := joinFrames_getLast segs rest hne hrest
    rw [← htext] at hlast
    rw [hsplit]
    by_cases hr : rest = []
    · have hl : (s.dataBuffer ++ d).getLast? = some '\n' := hlast.mpr hr
      simp only [hl, if_true]
      subst hr
      rw [processMessages_append_empty]
    · have hl : ¬ (s.dataBuffer ++ d).getLast? = some '\n' := fun e => hr (hlast.mp e)
      simp only [hl, if_false]
      simp

theorem exists_frames (t : Text) :
    ∃ segs rest, t = joinFrames segs ++ rest ∧ (∀ seg ∈ segs, '\n' ∉ seg) ∧ '\n' ∉ rest := by
  induction t with
  | nil => exact ⟨[], [], rfl, by simp, by simp⟩
  | cons c cs ih =>
    obtain ⟨segs, rest, ht, hsegs, hrest⟩ := ih
    by_cases hc : c = '\n'
    · refine ⟨[] :: segs, rest, by simp [joinFrames, ht, hc], ?_, hrest⟩
      intro seg hseg
      rcases List.mem_cons.mp hseg with h | h
      · subst h; simp
      · exact hsegs seg h
    · have hc1 : '\n' ≠ c := fun e => hc e.symm
      cases segs with
      | nil =>
        refine ⟨[], c :: rest, by simp [joinFrames] at ht ⊢; exact ht, by simp, ?_⟩
        simp [hc1, hrest]
      | cons seg tl =>
        refine ⟨(c :: seg) :: tl, rest, by simp [joinFrames] at ht ⊢; exact ht, ?_, hrest⟩
        intro x hx
        rcases List.mem_cons.mp hx with h | h
        · subst h
          have := hsegs seg (by simp)
          simp [hc1, this]
        · exact hsegs x (by simp [h])

theorem onData_within_cap_trace (o : Options) (decode : Text → Option JsVal) (now : Int)
    (d : Text) (s : Session) (hcap : byteLength (s.dataBuffer ++ d) ≤ 10240) :
    ∃ es, (outcome (onData o decode now d s)).trace = s.trace ++ es ∧ floodsOf es = 0 := by
  obtain ⟨segs, rest, htext, hsegs, hrest⟩ := exists_frames (s.dataBuffer ++ d)
  have key := onData_of_frames o decode now d s segs rest htext hsegs hrest hcap
  obtain ⟨es, ht, hf, _⟩ := processMessages_trace o decode now d segs
    { s with dataBuffer := s.dataBuffer ++ d }
  refine ⟨es, ?_, hf⟩
  rw [key]
  revert ht
  cases processMessages o decode now d segs { s with dataBuffer := s.dataBuffer ++ d } <;>
    exact fun ht => ht

/-- C5, as stated, fails: a chunk within the cap carries an authorize request
without `params` followed by a subscribe request.  `handleAuthorize` throws on
reading `message.params[0]`, which abandons the batch: the second segment is
never handed to the decoder and the buffer still holds the whole text instead
of the (empty) text after the last newline. -/
theorem onData_throwing_frame_counterexample :
    throwingChunk = joinFrames [authorizeNoParamsText, subscribeText] ++ [] ∧
    byteLength ((Session.fresh 0 none).dataBuffer ++ throwingChunk) ≤ 10240 ∧
    onData (sampleOptions none false) sampleDecode 0 throwingChunk (Session.fresh 0 none)
      = .error { Session.fresh 0 none with
          dataBuffer := throwingChunk
          trace := [.parse authorizeNoParamsText, .dispatch authorizeNoParamsDoc] } := by
  refine ⟨by decide, by decide, by rfl⟩

/-- C5, amended: take a receive event whose text (retained buffer followed by
the chunk) is within the cap and consists of the newline-terminated segments
`segs` followed by the newline-free remainder `rest`.  If there is no newline,
nothing is decoded and the whole text is retained.  If the handler returns,
every non-empty segment has been handed to the decoder exactly once, in order,
and `rest` is the new retained buffer.  The handler does return when no
decoded frame is an authorize request without `params`. -/
theorem onData_framing_spec (o : Options) (decode : Text → Option JsVal) (now : Int)
    (d : Text) (s : Session) (segs : List Text) (rest : Text)
    (htext : s.dataBuffer ++ d = joinFrames segs ++ rest)
    (hsegs : ∀ seg ∈ segs, '\n' ∉ seg) (hrest : '\n' ∉ rest)
    (hcap : byteLength (s.dataBuffer ++ d) ≤ 10240) :
    (segs = [] → onData o decode now d s = .ok { s with dataBuffer := s.dataBuffer ++ d }) ∧
    (∀ s1, onData o decode now d s = .ok s1 →
      parsesOf s1.trace = parsesOf s.trace ++ segs.filter (fun seg => decide (seg ≠ [])) ∧
        s1.dataBuffer = rest) ∧
    ((∀ seg ∈ segs, ∀ doc, decode seg = some doc → handlerThrows doc = false) →
      ∃ s1, onData o decode now d s = .ok s1) := by
  have key := onData_of_frames o decode now d s segs rest htext hsegs hrest hcap
  refine ⟨?_, ?_, ?_⟩
  · intro hnil
    subst hnil
    rw [key]
    simp only [joinFrames, List.nil_append] at htext
    simp [processMessages, htext]
  · intro s1 hs1
    rw [key] at hs1
    obtain ⟨es, ht, _, hp⟩ := processMessages_trace o decode now d segs
      { s with dataBuffer := s.dataBuffer ++ d }
    cases hpm : processMessages o decode now d segs { s with dataBuffer := s.dataBuffer ++ d } with
    | error e => rw [hpm] at hs1; simp at hs1
    | ok s2 =>
      rw [hpm] at hs1 ht
      simp only [Except.ok.injEq] at hs1
      simp only [outcome] at ht
      subst hs1
      refine ⟨?_, rfl⟩
      show parsesOf s2.trace = _
      rw [ht, parsesOf_append, hp ⟨s2, hpm⟩]
  · intro hok
    obtain ⟨s2, hs2⟩ := processMessages_ok o decode now d segs hok
      { s with dataBuffer := s.dataBuffer ++ d }
    exact ⟨_, by rw [key, hs2]⟩

/-- Witness for C5: two complete frames and the start of a third arrive in one
chunk on a fresh session. -/
theorem onData_framing_spec_witness :
    parsesOf (outcome (onData (sampleOptions none false) sampleDecode 0 twoFramesChunk
        (Session.fresh 0 none))).trace = [subscribeText, submitText] ∧
    (outcome (onData (sampleOptions none false) sampleDecode 0 twoFramesChunk
        (Session.fresh 0 none))).dataBuffer = "\x7b\"id\":".toList :=
  (onData_framing_spec (sampleOptions none false) sampleDecode 0 twoFramesChunk
    (Session.fresh 0 none) [subscribeText, submitText] "\x7b\"id\":".toList
    (by decide) (by decide) (by decide) (by decide)).2.1 _ (by rfl)

/-- C6: a receive event whose text (retained buffer followed by the chunk) is
longer than 10240 UTF-8 bytes and holds no newline raises exactly one
`socketFlooded` signal, empties the buffer, destroys the socket and does
nothing else: no frame is decoded or dispatched.  A text of exactly 10240
bytes raises no `socketFlooded` signal. -/
theorem onData_flood_spec (o : Options) (decode : Text → Option JsVal) (now : Int)
    (d : Text) (s : Session) :
    (byteLength (s.dataBuffer ++ d) > 10240 → '\n' ∉ s.dataBuffer ++ d →
      onData o decode now d s
        = .ok { s with
            dataBuffer := []
            trace := s.trace ++ [.emit .socketFlooded, .destroy] }) ∧
    (byteLength (s.dataBuffer ++ d) = 10240 →
      ∃ es, (outcome (onData o decode now d s)).trace = s.trace ++ es ∧ floodsOf es = 0) :=
  ⟨fun h _ => onData_of_flood o decode now d s h,
    fun h => onData_within_cap_trace o decode now d s (by omega)⟩

/-- Witness for C6: 10241 bytes without a newline reach a fresh session. -/
theorem onData_flood_spec_witness :
    onData (sampleOptions none false) sampleDecode 0 floodChunk (Session.fresh 0 none)
      = .ok { Session.fresh 0 none with
          dataBuffer := []
          trace := [.emit .socketFlooded, .destroy] } :=
  (onData_flood_spec (sampleOptions none false) sampleDecode 0 floodChunk
    (Session.fresh 0 none)).1
    (by
      show byteLength ([] ++ List.replicate 10241 'a') > 10240
      rw [List.nil_append, byteLength_replicate_a]; omega)
    (by
      show '\n' ∉ [] ++ List.replicate 10241 'a'
      intro h
      rw [List.nil_append] at h
      exact absurd (List.eq_of_mem_replicate h) (by decide))

/-- C7, as stated, fails: a chunk of 223 complete submit frames (10258 bytes)
leaves an empty unterminated remainder, yet the session raises
`socketFlooded`, drops the buffer and destroys the socket without decoding a
single frame. -/
theorem onData_complete_frames_flood_counterexample :
    manyFramesChunk = joinFrames (List.replicate 223 submitText) ++ [] ∧
    byteLength ([] : Text) ≤ 10240 ∧
    onData (sampleOptions none false) sampleDecode 0 manyFramesChunk (Session.fresh 0 none)
      = .ok { Session.fresh 0 none with
          dataBuffer := []
          trace := [.emit .socketFlooded, .destroy] } := by
  refine ⟨by rw [List.append_nil]; rfl, by decide, ?_⟩
  have hlen : byteLength ((Session.fresh 0 none).dataBuffer ++ manyFramesChunk) > 10240 := by
    show byteLength ([] ++ joinFrames (List.replicate 223 submitText)) > 10240
    rw [List.nil_append, byteLength_joinFrames_replicate]
    have : byteLength submitText = 45 := by decide
    omega
  exact onData_of_flood _ _ _ _ _ hlen

/-- C7, amended: the flood threshold applies to the whole text held after the
chunk is appended, complete frames included.  Let that text be made of the
newline-terminated segments `segs` and the remainder `rest`.  Whenever it is
longer than 10240 bytes the event is a flood, however short `rest` is: one
`socketFlooded` signal, the buffer dropped, the socket destroyed, nothing
decoded.  Whenever it is at most 10240 bytes the event raises no
`socketFlooded` signal, and, provided no decoded frame is an authorize request
without `params`, the handler returns having dispatched every non-empty
segment that decodes to a truthy document, in order, and retains `rest`. -/
theorem onData_flood_threshold_spec (o : Options) (decode : Text → Option JsVal) (now : Int)
    (d : Text) (s : Session) (segs : List Text) (rest : Text)
    (htext : s.dataBuffer ++ d = joinFrames segs ++ rest)
    (hsegs : ∀ seg ∈ segs, '\n' ∉ seg) (hrest : '\n' ∉ rest) :
    (byteLength (joinFrames segs ++ rest) > 10240 →
      onData o decode now d s
        = .ok { s with
            dataBuffer := []
            trace := s.trace ++ [.emit .socketFlooded, .destroy] }) ∧
    (byteLength (joinFrames segs ++ rest) ≤ 10240 →
      (∃ es, (outcome (onData o decode now d s)).trace = s.trace ++ es ∧ floodsOf es = 0) ∧
      ((∀ seg ∈ segs, ∀ doc, decode seg = some doc → handlerThrows doc = false) →
        ∃ s1, onData o decode now d s = .ok s1 ∧
          dispatchesOf s1.trace = dispatchesOf s.trace ++ framesToDispatch decode segs ∧
          s1.dataBuffer = rest)) := by
  rw [← htext]
  constructor
  · intro hflood
    exact onData_of_flood o decode now d s hflood
  · intro hcap
    have key := onData_of_frames o decode now d s segs rest htext hsegs hrest hcap
    constructor
    · exact onData_within_cap_trace o decode now d s hcap
    · intro hok
      obtain ⟨s2, hs2⟩ := processMessages_ok o decode now d segs hok
        { s with dataBuffer := s.dataBuffer ++ d }
      refine ⟨{ s2 with dataBuffer := rest }, by rw [key, hs2], ?_, rfl⟩
      exact processMessages_dispatches o decode now d segs
        { s with dataBuffer := s.dataBuffer ++ d } s2 hs2

/-- Witness for C7: 223 complete submit frames with an empty remainder are a
flood, whereas two complete frames and the start of a third, about a hundred
bytes in all, are not. -/
theorem onData_flood_threshold_spec_witness :
    onData (sampleOptions none false) sampleDecode 0 manyFramesChunk (Session.fresh 0 none)
      = .ok { Session.fresh 0 none with
          dataBuffer := []
          trace := [.emit .socketFlooded, .destroy] } ∧
    ∃ es, (outcome (onData (sampleOptions none false) sampleDecode 0 twoFramesChunk
        (Session.fresh 0 none))).trace = (Session.fresh 0 none).trace ++ es ∧
      floodsOf es = 0 :=
  ⟨(onData_flood_threshold_spec (sampleOptions none false) sampleDecode 0 manyFramesChunk
      (Session.fresh 0 none) (List.replicate 223 submitText) []
      (by rw [List.append_nil]; rfl)
      (fun seg hseg => by rw [List.eq_of_mem_replicate hseg]; decide)
      (by simp)).1
      (by
        rw [List.append_nil, byteLength_joinFrames_replicate]
        have : byteLength submitText = 45 := by decide
        omega),
   ((onData_flood_threshold_spec (sampleOptions none false) sampleDecode 0 twoFramesChunk
      (Session.fresh 0 none) [subscribeText, submitText] "\x7b\"id\":".toList
      (by decide) (by decide) (by decide)).2 (by decide)).1⟩

/-- C8: a non-empty segment that fails to decode makes the session raise
`malformedMessage` with that segment and destroy the socket, unless proxy mode
is configured and the chunk being processed begins with `PROXY`, in which case
the failure has no effect at all.  Either way the segment is not dispatched to
the method handler. -/
theorem processMessage_malformed_spec (o : Options) (decode : Text → Option JsVal)
    (now : Int) (d message : Text) (s : Session)
    (hne : message ≠ []) (hdec : decode message = none) :
    (¬ (o.tcpProxyProtocol = true ∧ startsWith proxyMarker d = true) →
      processMessage o decode now d message s
        = .ok { s with
            trace := s.trace ++ [.parse message, .emit (.malformedMessage message), .destroy] }) ∧
    ((o.tcpProxyProtocol = true ∧ startsWith proxyMarker d = true) →
      processMessage o decode now d message s
        = .ok { s with trace := s.trace ++ [.parse message] }) ∧
    dispatchesOf (outcome (processMessage o decode now d message s)).trace
      = dispatchesOf s.trace := by
  refine ⟨?_, ?_, ?_⟩
  · intro h
    have hc : (!o.tcpProxyProtocol || !startsWith proxyMarker d) = true := by
      cases h1 : o.tcpProxyProtocol <;> cases h2 : startsWith proxyMarker d <;> simp_all
    simp [processMessage, hne, hdec, hc, Session.log]
  · intro h
    simp [processMessage, hne, hdec, h.1, h.2, Session.log]
  · rw [processMessage_dispatches]
    simp [framesToDispatch, hne, hdec]

/-- Witness for C8: the proxy preamble line is a segment of the very chunk that
begins with `PROXY`, in proxy mode. -/
theorem processMessage_malformed_spec_witness :
    processMessage (sampleOptions none true) sampleDecode 0 (proxyLine ++ ['\n']) proxyLine
        (Session.fresh 0 none)
      = .ok { Session.fresh 0 none with trace := [.parse proxyLine] } :=
  (processMessage_malformed_spec (sampleOptions none true) sampleDecode 0
    (proxyLine ++ ['\n']) proxyLine (Session.fresh 0 none) (by decide) (by rfl)).2.1
    ⟨rfl, by decide⟩

/-! ## Server: banned-host table -/

theorem lookup_delete (table : BanTable) (key : String) :
    (table.delete key).lookup key = none := by
  induction table with
  | nil => rfl
  | cons e es ih =>
    unfold BanTable.delete at ih ⊢
    by_cases h : e.1 = key
    · simp only [List.filter, h, ne_eq, not_true_eq_false, decide_False]
      exact ih
    · simp only [List.filter, h, ne_eq, not_false_eq_true, decide_True]
      rw [List.lookup]
      have : (key == e.1) = false := by
        rw [beq_eq_false_iff_ne]; exact fun e' => h e'.symm
      rw [this]
      exact ih

/-- C11: with banning enabled, a ban check at time `now` for a session whose
host is recorded in the table with timestamp `t` destroys the socket, raises
`kickedBannedIP` and keeps the table as it is when `now - t` is below
`banning.time * 1000` milliseconds; otherwise it removes the entry, raises
`forgaveBannedIP` and leaves the socket alone.  For a host that is not in the
table the check never destroys the socket. -/
theorem checkBan_spec (so : ServerOptions) (b : Banning) (now t : Int) (client : Session)
    (table : BanTable) (hb : so.banning = some b) (he : b.enabled = true) :
    (table.lookup (hostKey client.remoteAddress) = some t →
      (now - t < (b.time : Int) * 1000 →
        checkBan so now client table
          = ({ client with
              trace := client.trace ++
                [.destroy,
                 .emit (.kickedBannedIP (toInt32 (Dbl.floor
                   (Dbl.div ((b.time : Int) * 1000 - (now - t)).toNat 1000))))] },
             table)) ∧
      (¬ now - t < (b.time : Int) * 1000 →
        checkBan so now client table
          = ({ client with trace := client.trace ++ [.emit .forgaveBannedIP] },
             table.delete (hostKey client.remoteAddress)) ∧
        (checkBan so now client table).2.lookup (hostKey client.remoteAddress) = none)) ∧
    (table.lookup (hostKey client.remoteAddress) = none →
      (checkBan so now client table).2 = table ∧
      ((checkBan so now client table).1 = client ∨
        (checkBan so now client table).1
          = { client with trace := client.trace ++ [.emit .forgaveBannedIP] })) := by
  refine ⟨?_, ?_⟩
  · intro hl
    constructor
    · intro hlt
      simp [checkBan, hb, he, hl, Session.log, bannedMS, hlt]
    · intro hge
      have key : checkBan so now client table
          = ({ client with trace := client.trace ++ [.emit .forgaveBannedIP] },
             table.delete (hostKey client.remoteAddress)) := by
        simp [checkBan, hb, he, hl, Session.log, bannedMS, hge]
      exact ⟨key, by rw [key]; exact lookup_delete table _⟩
  · intro hl
    by_cases hp : hostKey client.remoteAddress ∈ objectPrototypeKeys
    · simp [checkBan, hb, he, hl, hp, Session.log]
    · simp [checkBan, hb, he, hl, hp]

/-- Witness for C11: host 10.0.0.7, banned at time 0 for 600 s, is checked one
second later. -/
theorem checkBan_spec_witness :
    checkBan (sampleServerOptions (some banning50) false) 1000
        (Session.fresh 1000 (some "10.0.0.7")) [("10.0.0.7", 0)]
      = ({ Session.fresh 1000 (some "10.0.0.7") with
          trace := [.destroy, .emit (.kickedBannedIP 599)] },
         [("10.0.0.7", 0)]) :=
  (((checkBan_spec (sampleServerOptions (some banning50) false) banning50 1000 0
    (Session.fresh 1000 (some "10.0.0.7")) [("10.0.0.7", 0)] rfl rfl).1 rfl).1
      (by decide)).trans (by rfl)

/-- C12: the sweep purges a ban that is still running.  Host 10.0.0.7 is banned
at time 0 for `banning.time = 600` seconds.  One second later the ban check
rejects the host, but a sweep at that moment compares the 1000 elapsed
milliseconds with 600 and deletes the entry, after which the ban check admits
the host. -/
theorem purgeBans_drops_running_ban :
    checkBan (sampleServerOptions (some banning50) false) 1000
        (Session.fresh 1000 (some "10.0.0.7")) [("10.0.0.7", 0)]
      = ({ Session.fresh 1000 (some "10.0.0.7") with
          trace := [.destroy, .emit (.kickedBannedIP 599)] },
         [("10.0.0.7", 0)]) ∧
    purgeBans banning50 1000 [("10.0.0.7", 0)] = [] ∧
    checkBan (sampleServerOptions (some banning50) false) 1000
        (Session.fresh 1000 (some "10.0.0.7")) (purgeBans banning50 1000 [("10.0.0.7", 0)])
      = (Session.fresh 1000 (some "10.0.0.7"), []) := by
  refine ⟨by rfl, by decide, by rfl⟩

/-- C13: the injection is not skipped for a banned host.  Host 10.0.0.7 was
banned at time 0 for 600 s; one second later `manuallyAddStratumClient` is
given a client on a socket from that host.  The accept path finds the host
banned (it destroys the socket and raises `kickedBannedIP`), but
`handleNewClient` returns the subscription id all the same, so the test
commented `not banned!` passes: the authorization collaborator is invoked for
the new session and extranonce1 and both difficulties are copied into it. -/
theorem manuallyAddStratumClient_ignores_ban :
    manuallyAddStratumClient (sampleServerOptions (some banning50) false) 1000
        (some "10.0.0.7") 3333 migratingClient serverWithBan
      = .ok
          { stratumClients :=
              [("deadbeefcafebabe0100000000000000",
                { Session.fresh 1000 (some "10.0.0.7") with
                  workerName := .str "w1"
                  workerPass := .str "x"
                  extraNonce1 := .str "60000001"
                  previousDifficulty := some 4
                  difficulty := some 8
                  trace :=
                    [.emit .checkBan, .destroy, .emit (.kickedBannedIP 599),
                     .authorize (some "10.0.0.7") 3333 (.str "w1") (.str "x")
                       (.obj [("id", .num 1), ("params", .arr [.str "w1", .str "x"])])
                       false] })]
            count := 1
            bannedIPs := [("10.0.0.7", 0)]
            signals := [.clientConnected "deadbeefcafebabe0100000000000000"] } := by
  rfl

/-! ## Subscription counter -/

theorem bitLenAux_bounds : ∀ (fuel n : Nat), n ≤ fuel → 0 < n →
    2 ^ (bitLenAux fuel n - 1) ≤ n ∧ n < 2 ^ bitLenAux fuel n ∧ 0 < bitLenAux fuel n := by
  intro fuel
  induction fuel with
  | zero => intro n h1 h2; omega
  | succ f ih =>
    intro n h1 h2
    have hn : n ≠ 0 := by omega
    rw [bitLenAux, if_neg hn]
    by_cases h : n / 2 = 0
    · have : n = 1 := by omega
      subst this
      cases f <;> simp [bitLenAux]
    · have hpos : 0 < n / 2 := Nat.pos_of_ne_zero h
      obtain ⟨a, b, c⟩ := ih (n / 2) (by omega) hpos
      refine ⟨?_, ?_, by omega⟩
      · simp only [Nat.add_sub_cancel]
        have : 2 ^ bitLenAux f (n / 2) = 2 * 2 ^ (bitLenAux f (n / 2) - 1) := by
          rw [← pow_succ']; congr 1; omega
        omega
      · rw [pow_succ]; omega

theorem bitLen_bounds (n : Nat) (h : 0 < n) :
    2 ^ (bitLen n - 1) ≤ n ∧ n < 2 ^ bitLen n ∧ 0 < bitLen n :=
  bitLenAux_bounds n n (le_refl n) h

/-- A positive integer below `2 ^ 53` is a double: rounding leaves it alone. -/
theorem floor_round_of_lt (n : Nat) (h0 : 0 < n) (h53 : n < 2 ^ 53) :
    Dbl.floor (Dbl.round n 1) = n := by
  obtain ⟨hlo, hhi, hpos⟩ := bitLen_bounds n h0
  have hL : bitLen n ≤ 53 := by
    by_contra hc
    have : 53 ≤ bitLen n - 1 := by omega
    have := Nat.pow_le_pow_right (show 0 < 2 by norm_num) this
    omega
  have hb1 : bitLen 1 = 1 := by decide
  have hs0 : (52 : Int) - ((bitLen n : Int) - ((1 : Nat) : Int))
      = ((53 - bitLen n : Nat) : Int) := by
    omega
  have hge : 2 ^ 52 ≤ n * 2 ^ (53 - bitLen n) := by
    calc 2 ^ 52 = 2 ^ (bitLen n - 1) * 2 ^ (53 - bitLen n) := by
          rw [← pow_add]; congr 1; omega
      _ ≤ n * 2 ^ (53 - bitLen n) := Nat.mul_le_mul_right _ hlo
  unfold Dbl.round
  simp only [hb1, hs0, Int.natCast_nonneg, if_true, Int.toNat_ofNat, Nat.div_one,
    Nat.mod_one, Nat.one_mul, Nat.mul_zero]
  have hlow : ¬ (n * 2 ^ (53 - bitLen n) < 2 ^ 52) := by omega
  simp only [hlow, decide_False, Bool.false_eq_true, if_false, Nat.lt_one_iff, if_true,
    Dbl.floor, Int.natCast_nonneg, Int.toNat_ofNat]
  exact Nat.mul_div_cancel _ (by positivity)

theorem increment_of_lt (count : Nat) (h : count < 2 ^ 53) : increment count = count + 1 := by
  unfold increment
  by_cases hc : count + 1 < 2 ^ 53
  · exact floor_round_of_lt (count + 1) (by omega) hc
  · have : count = 2 ^ 53 - 1 := by omega
    subst this
    decide

theorem next_of_lt (count : Nat) (h : count < 2 ^ 53) :
    SubscriptionCounter.next count = (subscriptionIdOf (count + 1), count + 1) := by
  have hmax : 2 ^ 53 < maxValue := by decide
  unfold SubscriptionCounter.next
  simp only [increment_of_lt count h]
  rw [if_neg (by omega)]

theorem countAfter_of_le (k : Nat) (h : k ≤ 2 ^ 53) : countAfter k = k := by
  induction k with
  | zero => rfl
  | succ j ih =>
    rw [countAfter, ih (by omega), next_of_lt j (by omega)]

theorem nthSubscriptionId_of_le (k : Nat) (h1 : 1 ≤ k) (h : k ≤ 2 ^ 53) :
    nthSubscriptionId k = subscriptionIdOf k := by
  unfold nthSubscriptionId
  rw [countAfter_of_le (k - 1) (by omega), next_of_lt (k - 1) (by omega)]
  have : k - 1 + 1 = k := by omega
  rw [this]

theorem ofBytesLE_packUInt64LE (n : Nat) (h : n < 2 ^ 64) :
    ofBytesLE (packUInt64LE n) = n := by
  simp only [packUInt64LE, List.range, List.range.loop, List.map, ofBytesLE]
  norm_num
  omega

theorem digitChar_injective :
    ∀ x y : Fin 16, Nat.digitChar x.val = Nat.digitChar y.val → x = y := by
  decide

theorem hexByte_injective (x y : Nat) (hx : x < 256) (hy : y < 256)
    (h : hexByte x = hexByte y) : x = y := by
  simp only [hexByte, List.cons.injEq, and_true] at h
  have h1 := digitChar_injective ⟨x / 16, by omega⟩ ⟨y / 16, by omega⟩ h.1
  have h2 := digitChar_injective ⟨x % 16, by omega⟩ ⟨y % 16, by omega⟩ h.2
  simp only [Fin.mk.injEq] at h1 h2
  omega

theorem toHex_injective : ∀ (xs ys : List Nat), xs.length = ys.length →
    (∀ x ∈ xs, x < 256) → (∀ y ∈ ys, y < 256) → toHex xs = toHex ys → xs = ys := by
  intro xs
  induction xs with
  | nil => intro ys hl _ _ _; cases ys with
    | nil => rfl
    | cons y ys => simp at hl
  | cons x xs ih =>
    intro ys hl hx hy h
    cases ys with
    | nil => simp at hl
    | cons y ys =>
      simp only [toHex, hexByte, List.cons_append, List.nil_append, List.cons.injEq] at h
      have hxy : x = y := hexByte_injective x y (hx x (by simp)) (hy y (by simp))
        (by simp [hexByte, h.1, h.2.1])
      have := ih ys (by simpa using hl) (fun a ha => hx a (by simp [ha]))
        (fun a ha => hy a (by simp [ha])) h.2.2
      rw [hxy, this]

theorem packUInt64LE_lt (n : Nat) : ∀ x ∈ packUInt64LE n, x < 256 := by
  intro x hx
  simp only [packUInt64LE, List.mem_map] at hx
  obtain ⟨i, _, hi⟩ := hx
  rw [← hi]
  exact Nat.mod_lt _ (by norm_num)

theorem subscriptionIdOf_injective (a b : Nat) (ha : a < 2 ^ 64) (hb : b < 2 ^ 64)
    (h : subscriptionIdOf a = subscriptionIdOf b) : a = b := by
  unfold subscriptionIdOf at h
  have h1 : (padding ++ String.mk (toHex (packUInt64LE a))).data
      = (padding ++ String.mk (toHex (packUInt64LE b))).data := by rw [h]
  simp only [String.data_append, List.append_cancel_left_eq] at h1
  have h2 := toHex_injective (packUInt64LE a) (packUInt64LE b)
    (by simp [packUInt64LE]) (packUInt64LE_lt a) (packUInt64LE_lt b) h1
  rw [← ofBytesLE_packUInt64LE a ha, ← ofBytesLE_packUInt64LE b hb, h2]

/-- C18, as stated, fails: increments of a double stop at `2 ^ 53`, so call
number `2 ^ 53 + 1` returns the identifier of call number `2 ^ 53` again, which
encodes `2 ^ 53` and not `2 ^ 53 + 1`. -/
theorem subscriptionCounter_saturates_counterexample :
    nthSubscriptionId (2 ^ 53 + 1) = nthSubscriptionId (2 ^ 53) ∧
    nthSubscriptionId (2 ^ 53 + 1) = "deadbeefcafebabe0000000000002000" ∧
    subscriptionIdOf (2 ^ 53 + 1) = "deadbeefcafebabe0100000000002000" := by
  have h1 : nthSubscriptionId (2 ^ 53) = subscriptionIdOf (2 ^ 53) :=
    nthSubscriptionId_of_le (2 ^ 53) (by norm_num) (le_refl _)
  have h2 : nthSubscriptionId (2 ^ 53 + 1) = subscriptionIdOf (2 ^ 53) := by
    unfold nthSubscriptionId
    rw [Nat.add_sub_cancel, countAfter_of_le (2 ^ 53) (le_refl _)]
    decide
  refine ⟨by rw [h1, h2], ?_, by decide⟩
  rw [h2]
  decide

/-- C18, amended: for `1 ≤ k ≤ 2 ^ 53` the `k`-th call of `next` on a new
counter returns `deadbeefcafebabe` followed by the hexadecimal text of the
8-byte little-endian encoding of `k`; the count then held is `k`, so the
encoded counts increase strictly with the call number, and calls `j < k`
return different identifiers. -/
theorem subscriptionCounter_spec (k : Nat) (h1 : 1 ≤ k) (h2 : k ≤ 2 ^ 53) :
    nthSubscriptionId k = "deadbeefcafebabe" ++ String.mk (toHex (packUInt64LE k)) ∧
    (packUInt64LE k).length = 8 ∧ ofBytesLE (packUInt64LE k) = k ∧
    countAfter k = k ∧
    (∀ j, 1 ≤ j → j < k →
      countAfter j < countAfter k ∧ nthSubscriptionId j ≠ nthSubscriptionId k) := by
  have hk64 : k < 2 ^ 64 := by
    have : (2 : Nat) ^ 53 < 2 ^ 64 := by norm_num
    omega
  refine ⟨nthSubscriptionId_of_le k h1 h2, by simp [packUInt64LE],
    ofBytesLE_packUInt64LE k hk64, countAfter_of_le k h2, ?_⟩
  intro j hj1 hjk
  constructor
  · rw [countAfter_of_le j (by omega), countAfter_of_le k h2]; exact hjk
  · rw [nthSubscriptionId_of_le j hj1 (by omega), nthSubscriptionId_of_le k h1 h2]
    intro h
    have := subscriptionIdOf_injective j k (by omega) hk64 h
    omega

/-- Witness for C18: the first call encodes 1. -/
theorem subscriptionCounter_spec_witness :
    nthSubscriptionId 1 = "deadbeefcafebabe0100000000000000" :=
  ((subscriptionCounter_spec 1 (le_refl 1) (by norm_num)).1).trans (by decide)

/-! ## Handshake, replies and the error listener -/

theorem banningEnabled_first_valid (b : Banning) (s : Session) (hs : s.shares = ⟨0, 0⟩)
    (hth : 1 < b.checkThreshold) :
    banningEnabled b (.bool true) s = (false, { s with shares := ⟨1, 0⟩ }) := by
  have h := banningEnabled_below b (.bool true) s (by rw [hs]; simpa using hth)
  rw [h, hs]
  rfl

/-- C14: a session whose counters are zero (a fresh one in particular), with
banning enabled and `checkThreshold > 1`, handles a `mining.subscribe` whose
completion succeeds with a truthy (non-empty) extranonce1, then a
`mining.authorize` whose completion reports no error, `authorized` and no
disconnect, then a `mining.submit` whose completion reports error null and
result true.  The last thing the session does is write the reply
`{id: submit id, result: true, error: null}`, and it ends with
`shares.valid = 1` and `shares.invalid = 0`. -/
theorem subscribe_authorize_submit_scenario (o : Options) (b : Banning) (t1 t2 t3 : Int)
    (subscribeMsg authorizeMsg submitMsg extraNonce1 extraNonce2Size subscribeError
      authorizeResult : JsVal)
    (s0 s1 s2 s3 : Session)
    (hb : o.banning = some b) (he : b.enabled = true) (hth : 1 < b.checkThreshold)
    (hs0 : s0.shares = ⟨0, 0⟩)
    (hm1 : subscribeMsg.get "method" = .str "mining.subscribe")
    (hm2 : authorizeMsg.get "method" = .str "mining.authorize")
    (hm3 : submitMsg.get "method" = .str "mining.submit")
    (hsub : subscribeError.truthy = false) (hnonce : extraNonce1.truthy = true)
    (hnoerr : (authorizeResult.get "error").truthy = false)
    (hauth : (authorizeResult.get "authorized").truthy = true)
    (hstay : authorizeResult.get "disconnect" ≠ .bool true)
    (h1 : handleMessage o t1 subscribeMsg s0 = .ok s1)
    (h2 : handleMessage o t2 authorizeMsg
      (subscribeCompletion o subscribeMsg subscribeError extraNonce1 extraNonce2Size s1)
        = .ok s2)
    (h3 : handleMessage o t3 submitMsg (authorizeCompletion authorizeMsg true authorizeResult s2)
        = .ok s3) :
    s3.trace = (authorizeCompletion authorizeMsg true authorizeResult s2).trace
        ++ [.emit (.submit submitMsg)] ∧
    (submitCompletion o submitMsg .null (.bool true) s3).trace
      = s3.trace ++ [.write [reply (submitMsg.get "id") (.bool true) .null]] ∧
    (submitCompletion o submitMsg .null (.bool true) s3).shares = ⟨1, 0⟩ := by
  -- subscribe
  have e1 : s1 = handleSubscribe subscribeMsg s0 := by
    simp [handleMessage, hm1] at h1; exact h1.symm
  have a1 : s1.shares = ⟨0, 0⟩ := by
    rw [e1]; simp [handleSubscribe, Session.underscoreAuthorized, JsVal.truthy, Session.log, hs0]
  -- subscription completes
  have a1c : (subscribeCompletion o subscribeMsg subscribeError extraNonce1 extraNonce2Size
      s1).shares = ⟨0, 0⟩ ∧
      (subscribeCompletion o subscribeMsg subscribeError extraNonce1 extraNonce2Size
      s1).extraNonce1 = extraNonce1 := by
    simp [subscribeCompletion, hsub, sendJson, Session.log, a1]
  -- authorize
  have e2 : handleAuthorize o authorizeMsg true
      (subscribeCompletion o subscribeMsg subscribeError extraNonce1 extraNonce2Size s1)
        = .ok s2 := by
    simpa [handleMessage, hm2] using h2
  have a2 : s2.shares = ⟨0, 0⟩ ∧ s2.extraNonce1 = extraNonce1 := by
    unfold handleAuthorize at e2
    split at e2
    · simp only [Except.ok.injEq] at e2
      rw [← e2]
      simpa [Session.log] using a1c
    · simp at e2
  -- authorization completes
  have a2c : (authorizeCompletion authorizeMsg true authorizeResult s2).shares = ⟨0, 0⟩ ∧
      (authorizeCompletion authorizeMsg true authorizeResult s2).extraNonce1 = extraNonce1 ∧
      (authorizeCompletion authorizeMsg true authorizeResult s2).authorized
        = authorizeResult.get "authorized" := by
    have hc : authorizeCompletion authorizeMsg true authorizeResult s2
        = sendJson [reply (authorizeMsg.get "id") (authorizeResult.get "authorized")
            (authorizeResult.get "error")]
            { s2 with authorized := authorizeResult.get "authorized" } := by
      unfold authorizeCompletion
      simp only [hnoerr, Bool.false_eq_true, if_false, if_true]
    rw [hc]
    simp [sendJson, Session.log, a2]
  -- submit
  have e3 : s3 = handleSubmit o submitMsg
      { authorizeCompletion authorizeMsg true authorizeResult s2 with lastActivity := t3 } := by
    simp [handleMessage, hm3] at h3; exact h3.symm
  have e3' : s3 = { authorizeCompletion authorizeMsg true authorizeResult s2 with
      lastActivity := t3
      trace := (authorizeCompletion authorizeMsg true authorizeResult s2).trace
        ++ [.emit (.submit submitMsg)] } := by
    rw [e3]
    simp [handleSubmit, a2c.2.2, a2c.2.1, hauth, hnonce, Session.log]
  have a3 : s3.shares = ⟨0, 0⟩ := by rw [e3']; exact a2c.1
  -- submission completes
  have hban : considerBan o (.bool true) s3 = (false, { s3 with shares := ⟨1, 0⟩ }) := by
    rw [considerBan_enabled o b (.bool true) s3 hb he]
    exact banningEnabled_first_valid b s3 a3 hth
  refine ⟨by rw [e3'], ?_, ?_⟩
  · simp [submitCompletion, hban, sendJson, Session.log]
  · simp [submitCompletion, hban, sendJson, Session.log]

/-- Witness for C14: the three requests on a fresh session, without proxy mode,
with a window of 2 shares. -/
theorem subscribe_authorize_submit_scenario_witness :
    (submitCompletion (sampleOptions (some banning50) false) submitFrame .null (.bool true)
      (outcome (handleMessage (sampleOptions (some banning50) false) 30 submitFrame
        (authorizeCompletion authorizeFrame true
          (.obj [("authorized", .bool true), ("error", .null), ("disconnect", .bool false)])
          (outcome (handleMessage (sampleOptions (some banning50) false) 20 authorizeFrame
            (subscribeCompletion (sampleOptions (some banning50) false) subscribeDoc .null
              (.str "60000001") (.num 4)
              (outcome (handleMessage (sampleOptions (some banning50) false) 10
                subscribeDoc (Session.fresh 0 none)))))))))).shares = ⟨1, 0⟩ :=
  (subscribe_authorize_submit_scenario (sampleOptions (some banning50) false) banning50
    10 20 30 subscribeDoc authorizeFrame submitFrame (.str "60000001") (.num 4) .null
    (.obj [("authorized", .bool true), ("error", .null), ("disconnect", .bool false)])
    (Session.fresh 0 none) _ _ _ rfl rfl (by decide) rfl rfl rfl rfl rfl (by decide) rfl rfl
    (fun h => absurd (JsVal.bool.inj h) (by decide)) rfl rfl rfl).2.2

/-- C15: the reply to `mining.get_transactions` does not carry the request id.
For the request `{"id": 5, "method": "mining.get_transactions"}` the session
writes `{id: null, result: [], error: true}`, whereas the reply to
`mining.extranonce.subscribe` (like the other replies) echoes the id. -/
theorem get_transactions_reply_drops_id :
    getTransactionsFrame.get "id" = .num 5 ∧
    handleMessage (sampleOptions none false) 0 getTransactionsFrame (Session.fresh 0 none)
      = .ok { Session.fresh 0 none with
          trace := [.write [.obj [("id", .null), ("result", .arr []), ("error", .bool true)]]] } ∧
    handleMessage (sampleOptions none false) 0
        (.obj [("id", .num 5), ("method", .str "mining.extranonce.subscribe")])
        (Session.fresh 0 none)
      = .ok { Session.fresh 0 none with
          trace := [.write [.obj [("id", .num 5), ("result", .bool false),
            ("error", .arr [.num 20, .str "Not supported.", .null])]]] } := by
  refine ⟨rfl, rfl, rfl⟩

/-- C17: a subscribe after a successful authorization still sets the flag.
`handleSubscribe` tests `_this._authorized`, which nothing ever writes (the
authorization result is stored in `_this.authorized`), so the authorized
session `sessionReady` ends with `requestedSubscriptionBeforeAuth = true`. -/
theorem handleSubscribe_marks_authorized_session :
    sessionReady.authorized = .bool true ∧
    sessionReady.requestedSubscriptionBeforeAuth = false ∧
    handleMessage (sampleOptions none false) 0 subscribeDoc sessionReady
      = .ok { sessionReady with
          requestedSubscriptionBeforeAuth := true
          trace := [.emit (.subscription subscribeDoc)] } := by
  refine ⟨rfl, rfl, rfl⟩

/-- C19: a transport error other than a reset makes the listener fail.  For an
error with code `EPIPE` the listener throws while evaluating the undefined
`err` and raises no `socketError` signal: the session is left as it was.  For
`ECONNRESET` it returns without raising anything. -/
theorem onError_throws_on_other_codes :
    onError (.str "EPIPE") sessionReady = .error sessionReady ∧
    onError (.str "ECONNRESET") sessionReady = .ok sessionReady := by
  refine ⟨rfl, rfl⟩

/-! ## Proxy preamble -/

theorem checkBansOf_append (xs ys : List Effect) :
    checkBansOf (xs ++ ys) = checkBansOf xs + checkBansOf ys := by
  induction xs with
  | nil => simp [checkBansOf]
  | cons e es ih =>
    cases e with
    | emit ev => cases ev <;> simp [checkBansOf, ih]; omega
    | _ => simp [checkBansOf, ih]

theorem keepsProxyState_refl (s : Session) : keepsProxyState s s :=
  ⟨rfl, rfl, [], by simp, rfl⟩

theorem keepsProxyState_trans (s s1 s2 : Session) (h1 : keepsProxyState s s1)
    (h2 : keepsProxyState s1 s2) : keepsProxyState s s2 := by
  obtain ⟨a1, b1, es1, t1, c1⟩ := h1
  obtain ⟨a2, b2, es2, t2, c2⟩ := h2
  exact ⟨a2.trans a1, b2.trans b1, es1 ++ es2, by rw [t2, t1, List.append_assoc],
    by rw [checkBansOf_append, c1, c2]⟩

theorem keepsProxyState_log (s : Session) (es : List Effect) (h : checkBansOf es = 0) :
    keepsProxyState s (s.log es) :=
  ⟨rfl, rfl, es, rfl, h⟩

theorem banningEnabled_keeps (b : Banning) (v : JsVal) (s : Session) :
    keepsProxyState s (banningEnabled b v s).2 := by
  unfold banningEnabled
  simp only
  split
  · split
    · exact ⟨rfl, rfl, [], by simp, rfl⟩
    · exact ⟨rfl, rfl, _, rfl, rfl⟩
  · exact ⟨rfl, rfl, [], by simp, rfl⟩

theorem considerBan_keeps (o : Options) (v : JsVal) (s : Session) :
    keepsProxyState s (considerBan o v s).2 := by
  unfold considerBan
  cases o.banning with
  | none => exact keepsProxyState_refl s
  | some b =>
    simp only
    by_cases he : b.enabled = true
    · rw [if_pos he]; exact banningEnabled_keeps b v s
    · rw [if_neg he]; exact keepsProxyState_refl s

theorem handleSubmit_keeps (o : Options) (message : JsVal) (s : Session) :
    keepsProxyState s (handleSubmit o message s) := by
  unfold handleSubmit
  split_ifs
  · exact keepsProxyState_trans _ _ _
      (keepsProxyState_log s [.write [reply (message.get "id") .null
        (errorTriple 24 "unauthorized worker")]] rfl) (considerBan_keeps o _ _)
  · exact keepsProxyState_trans _ _ _
      (keepsProxyState_log s [.write [reply (message.get "id") .null
        (errorTriple 25 "not subscribed")]] rfl) (considerBan_keeps o _ _)
  · exact keepsProxyState_log s [.emit (.submit message)] rfl

theorem handleMessage_keeps (o : Options) (now : Int) (message : JsVal) (s : Session) :
    keepsProxyState s (outcome (handleMessage o now message s)) := by
  unfold handleMessage
  split
  · split_ifs
    · exact ⟨rfl, rfl, [.emit (.subscription message)],
        by simp [outcome, handleSubscribe, Session.log, Session.underscoreAuthorized,
          JsVal.truthy], rfl⟩
    · unfold handleAuthorize
      split
      · exact ⟨rfl, rfl, [_], rfl, rfl⟩
      · exact keepsProxyState_refl s
    · exact keepsProxyState_trans s { s with lastActivity := now } _
        ⟨rfl, rfl, [], by simp, rfl⟩ (handleSubmit_keeps o message _)
    · exact keepsProxyState_log s _ rfl
    · exact keepsProxyState_log s _ rfl
    · exact keepsProxyState_log s _ rfl
  · exact keepsProxyState_log s _ rfl

theorem processMessage_keeps (o : Options) (decode : Text → Option JsVal) (now : Int)
    (d message : Text) (s : Session) :
    keepsProxyState s (outcome (processMessage o decode now d message s)) := by
  unfold processMessage
  by_cases hm : message = []
  · rw [if_pos hm]; exact keepsProxyState_refl s
  · rw [if_neg hm]
    simp only
    cases decode message with
    | none =>
      simp only
      split_ifs
      · exact keepsProxyState_trans _ _ _ (keepsProxyState_log s [.parse message] rfl)
          (keepsProxyState_log _ [.emit (.malformedMessage message), .destroy] rfl)
      · exact keepsProxyState_log s [.parse message] rfl
    | some doc =>
      simp only
      split_ifs
      · exact keepsProxyState_trans _ _ _
          (keepsProxyState_trans _ _ _ (keepsProxyState_log s [.parse message] rfl)
            (keepsProxyState_log _ [.dispatch doc] rfl))
          (handleMessage_keeps o now doc _)
      · exact keepsProxyState_log s [.parse message] rfl

theorem processMessages_keeps (o : Options) (decode : Text → Option JsVal) (now : Int)
    (d : Text) (messages : List Text) :
    ∀ s : Session, keepsProxyState s (outcome (processMessages o decode now d messages s)) := by
  induction messages with
  | nil => intro s; exact keepsProxyState_refl s
  | cons m ms ih =>
    intro s
    have h1 := processMessage_keeps o decode now d m s
    unfold processMessages
    cases hpm : processMessage o decode now d m s with
    | error e => rw [hpm] at h1; exact h1
    | ok s1 =>
      rw [hpm] at h1
      exact keepsProxyState_trans _ _ _ h1 (ih s1)

theorem onData_keeps (o : Options) (decode : Text → Option JsVal) (now : Int) (d : Text)
    (s : Session) : keepsProxyState s (outcome (onData o decode now d s)) := by
  by_cases hcap : byteLength (s.dataBuffer ++ d) > 10240
  · rw [onData_of_flood o decode now d s hcap]
    exact ⟨rfl, rfl, [.emit .socketFlooded, .destroy], rfl, rfl⟩
  · obtain ⟨segs, rest, htext, hsegs, hrest⟩ := exists_frames (s.dataBuffer ++ d)
    rw [onData_of_frames o decode now d s segs rest htext hsegs hrest (by omega)]
    have h := processMessages_keeps o decode now d segs
      { s with dataBuffer := s.dataBuffer ++ d }
    have h0 : keepsProxyState s { s with dataBuffer := s.dataBuffer ++ d } :=
      ⟨rfl, rfl, [], by simp, rfl⟩
    revert h
    cases processMessages o decode now d segs { s with dataBuffer := s.dataBuffer ++ d } with
    | error e => exact fun h => keepsProxyState_trans _ _ _ h0 h
    | ok s2 =>
      intro h
      exact keepsProxyState_trans _ _ _ (keepsProxyState_trans _ _ _ h0 h)
        ⟨rfl, rfl, [], by simp [outcome], rfl⟩

/-- C16, as stated, fails: the second space-delimited token of the chunk
`PROXY TCP4 1.2.3.4 5.6.7.8 1000 3333` is `TCP4`, but the session in proxy
mode adopts `1.2.3.4`, the third token (`d.split(' ')[2]`). -/
theorem proxy_address_token_counterexample :
    (splitOn ' ' proxyLine).get? 1 = some "TCP4".toList ∧
    (outcome (receive (sampleOptions none true) sampleDecode 0 proxyLine
      (setupSocket (sampleOptions none true) (Session.fresh 0 (some "10.0.0.1"))))).remoteAddress
      = some "1.2.3.4" := by
  refine ⟨by decide, by rfl⟩

/-- C16, amended: in proxy mode `setupSocket` arms the one-shot listener
without raising `checkBan`.  On the first chunk `d` after that, a chunk that
begins with `PROXY` makes the remote address the third space-delimited token
(`d.split(' ')[2]`, `undefined` when there are fewer tokens); any other chunk
leaves the remote address alone and raises `tcpProxyError` with the chunk.
Either way exactly one `checkBan` is raised for that chunk, right after the
inspection, and the listener is disarmed, so no later chunk raises
`checkBan`. -/
theorem receive_proxy_first_chunk_spec (o : Options) (decode : Text → Option JsVal)
    (now : Int) (d : Text) (s : Session) (ha : s.proxyListenerArmed = true) :
    (o.tcpProxyProtocol = true → ∀ s0 : Session,
      (setupSocket o s0).proxyListenerArmed = true ∧ (setupSocket o s0).trace = s0.trace) ∧
    (startsWith proxyMarker d = true →
      (outcome (receive o decode now d s)).remoteAddress
          = ((splitOn ' ' d).get? 2).map String.mk ∧
        ∃ es, (outcome (receive o decode now d s)).trace
          = s.trace ++ .emit .checkBan :: es ∧ checkBansOf es = 0) ∧
    (startsWith proxyMarker d = false →
      (outcome (receive o decode now d s)).remoteAddress = s.remoteAddress ∧
        ∃ es, (outcome (receive o decode now d s)).trace
          = s.trace ++ .emit (.tcpProxyError d) :: .emit .checkBan :: es ∧
            checkBansOf es = 0) ∧
    (outcome (receive o decode now d s)).proxyListenerArmed = false ∧
    (∀ (now2 : Int) (d2 : Text) (s2 : Session), s2.proxyListenerArmed = false →
      (outcome (receive o decode now2 d2 s2)).proxyListenerArmed = false ∧
        ∃ es, (outcome (receive o decode now2 d2 s2)).trace = s2.trace ++ es ∧
          checkBansOf es = 0) := by
  have hr : receive o decode now d s = onData o decode now d (proxyFirstChunk d s) := by
    simp [receive, ha]
  obtain ⟨k1, k2, es, k3, k4⟩ := onData_keeps o decode now d (proxyFirstChunk d s)
  rw [hr]
  refine ⟨?_, ?_, ?_, ?_, ?_⟩
  · intro hp s0
    simp [setupSocket, hp]
  · intro hm
    refine ⟨by rw [k1]; simp [proxyFirstChunk, hm, Session.log], es, ?_, k4⟩
    rw [k3]; simp [proxyFirstChunk, hm, Session.log]
  · intro hm
    refine ⟨by rw [k1]; simp [proxyFirstChunk, hm, Session.log], es, ?_, k4⟩
    rw [k3]; simp [proxyFirstChunk, hm, Session.log]
  · rw [k2]; simp [proxyFirstChunk, Session.log]
  · intro now2 d2 s2 h2
    have hr2 : receive o decode now2 d2 s2 = onData o decode now2 d2 s2 := by
      simp [receive, h2]
    obtain ⟨_, j2, es2, j3, j4⟩ := onData_keeps o decode now2 d2 s2
    rw [hr2]
    exact ⟨j2.trans h2, es2, j3, j4⟩

/-- Witness for C16: the preamble `PROXY TCP4 1.2.3.4 5.6.7.8 1000 3333` is the
first chunk of a session in proxy mode. -/
theorem receive_proxy_first_chunk_spec_witness :
    (outcome (receive (sampleOptions none true) sampleDecode 0 proxyLine
      (setupSocket (sampleOptions none true) (Session.fresh 0 (some "10.0.0.1"))))).remoteAddress
      = some "1.2.3.4" :=
  ((receive_proxy_first_chunk_spec (sampleOptions none true) sampleDecode 0 proxyLine
    (setupSocket (sampleOptions none true) (Session.fresh 0 (some "10.0.0.1"))) rfl).2.1
      (by decide)).1.trans (by decide)

/-! ## Malformed segments inside a batch -/

theorem malformedOf_append (xs ys : List Effect) :
    malformedOf (xs ++ ys) = malformedOf xs ++ malformedOf ys := by
  induction xs with
  | nil => rfl
  | cons e es ih =>
    cases e with
    | emit ev => cases ev <;> simp [malformedOf, ih]
    | _ => simp [malformedOf, ih]

theorem malformedOf_of_not_framing (es : List Effect) (h : ∀ e ∈ es, e.framing = false) :
    malformedOf es = [] := by
  induction es with
  | nil => rfl
  | cons e es ih =>
    have he := h e (by simp)
    have hes := ih (fun x hx => h x (by simp [hx]))
    cases e with
    | emit ev => cases ev <;> simp_all [malformedOf, Effect.framing]
    | _ => simp_all [malformedOf, Effect.framing]

theorem malformedSegments_cons (o : Options) (decode : Text → Option JsVal) (d m : Text)
    (ms : List Text) :
    malformedSegments o decode d (m :: ms)
      = malformedSegments o decode d [m] ++ malformedSegments o decode d ms := by
  unfold malformedSegments
  split_ifs
  · rfl
  · rw [← List.filter_append]; rfl

theorem processMessage_malformedOf (o : Options) (decode : Text → Option JsVal) (now : Int)
    (d message : Text) (s : Session) :
    malformedOf (outcome (processMessage o decode now d message s)).trace
      = malformedOf s.trace ++ malformedSegments o decode d [message] := by
  unfold processMessage malformedSegments
  by_cases hm : message = []
  · simp [hm, outcome]
  · rw [if_neg hm]
    cases hdoc : decode message with
    | none =>
      simp only
      by_cases hp : (o.tcpProxyProtocol && startsWith proxyMarker d) = true
      · have hc : ¬ ((!o.tcpProxyProtocol || !startsWith proxyMarker d) = true) := by
          cases h1 : o.tcpProxyProtocol <;> cases h2 : startsWith proxyMarker d <;> simp_all
        rw [if_neg hc, if_pos hp]
        simp [outcome, Session.log, malformedOf_append, malformedOf]
      · have hc : (!o.tcpProxyProtocol || !startsWith proxyMarker d) = true := by
          cases h1 : o.tcpProxyProtocol <;> cases h2 : startsWith proxyMarker d <;> simp_all
        rw [if_pos hc, if_neg hp]
        simp [outcome, Session.log, malformedOf_append, malformedOf, hm, hdoc]
    | some doc =>
      simp only
      have hnone : (if (o.tcpProxyProtocol && startsWith proxyMarker d) = true then []
          else List.filter (fun seg => decide (seg ≠ []) && (decode seg).isNone) [message])
            = ([] : List Text) := by
        split_ifs
        · rfl
        · simp [hdoc]
      rw [hnone, List.append_nil]
      by_cases ht : doc.truthy = true
      · rw [if_pos ht]
        obtain ⟨es, hes, hq⟩ := handleMessage_trace o now doc
          ((s.log [.parse message]).log [.dispatch doc])
        rw [hes]
        simp [Session.log, malformedOf_append, malformedOf, malformedOf_of_not_framing es hq]
      · rw [if_neg ht]
        simp [outcome, Session.log, malformedOf_append, malformedOf]

theorem processMessages_malformedOf (o : Options) (decode : Text → Option JsVal) (now : Int)
    (d : Text) (messages : List Text) :
    ∀ s s1 : Session, processMessages o decode now d messages s = .ok s1 →
      malformedOf s1.trace = malformedOf s.trace ++ malformedSegments o decode d messages := by
  induction messages with
  | nil =>
    intro s s1 h
    simp only [processMessages, Except.ok.injEq] at h
    subst h
    simp [malformedSegments]
  | cons m ms ih =>
    intro s s1 h
    have hd := processMessage_malformedOf o decode now d m s
    unfold processMessages at h
    cases hpm : processMessage o decode now d m s with
    | error e => rw [hpm] at h; simp at h
    | ok s2 =>
      rw [hpm] at h hd
      simp only [outcome] at h hd
      rw [ih s2 s1 h, hd, malformedSegments_cons o decode d m ms, List.append_assoc]

/-- C20, as stated, fails.  First, a chunk holding a segment that is not JSON,
then an authorize request without `params`, then a subscribe request: the
handler throws on the second segment, so the third, though complete and not
empty, is never decoded.  Second, in proxy mode a chunk that begins with
`PROXY` holds two segments that fail to decode, yet no `malformedMessage`
signal is raised at all. -/
theorem onData_after_malformed_counterexample :
    onData (sampleOptions none false) sampleDecode 0 garbageThenThrowingChunk
        (Session.fresh 0 none)
      = .error { Session.fresh 0 none with
          dataBuffer := garbageThenThrowingChunk
          trace :=
            [.parse garbageText, .emit (.malformedMessage garbageText), .destroy,
             .parse authorizeNoParamsText, .dispatch authorizeNoParamsDoc] } ∧
    onData (sampleOptions none true) sampleDecode 0 proxyThenGarbageChunk
        (Session.fresh 0 none)
      = .ok { Session.fresh 0 none with
          trace := [.parse proxyLine, .parse garbageText] } := by
  refine ⟨by rfl, by rfl⟩

/-- C20, amended: take a receive event whose text is within the cap and
consists of the newline-terminated segments `segs` and the remainder `rest`,
none of whose decoded frames is an authorize request without `params`.  Then
the handler returns; every non-empty segment, whatever came before it, has
been decoded, in order; every one that decodes to a truthy document has been
dispatched, in order; and one `malformedMessage` signal has been raised for
each non-empty segment that fails to decode, unless proxy mode is configured
and the chunk begins with `PROXY`, in which case none has. -/
theorem onData_continues_after_malformed (o : Options) (decode : Text → Option JsVal)
    (now : Int) (d : Text) (s : Session) (segs : List Text) (rest : Text)
    (htext : s.dataBuffer ++ d = joinFrames segs ++ rest)
    (hsegs : ∀ seg ∈ segs, '\n' ∉ seg) (hrest : '\n' ∉ rest)
    (hcap : byteLength (s.dataBuffer ++ d) ≤ 10240)
    (hok : ∀ seg ∈ segs, ∀ doc, decode seg = some doc → handlerThrows doc = false) :
    ∃ s1, onData o decode now d s = .ok s1 ∧
      parsesOf s1.trace = parsesOf s.trace ++ segs.filter (fun seg => decide (seg ≠ [])) ∧
      dispatchesOf s1.trace = dispatchesOf s.trace ++ framesToDispatch decode segs ∧
      malformedOf s1.trace = malformedOf s.trace ++
        (if o.tcpProxyProtocol && startsWith proxyMarker d then []
         else segs.filter (fun seg => decide (seg ≠ []) && (decode seg).isNone)) := by
  have key := onData_of_frames o decode now d s segs rest htext hsegs hrest hcap
  obtain ⟨s2, hs2⟩ := processMessages_ok o decode now d segs hok
    { s with dataBuffer := s.dataBuffer ++ d }
  obtain ⟨es, ht, _, hp⟩ := processMessages_trace o decode now d segs
    { s with dataBuffer := s.dataBuffer ++ d }
  rw [hs2] at ht
  simp only [outcome] at ht
  refine ⟨{ s2 with dataBuffer := rest }, by rw [key, hs2], ?_, ?_, ?_⟩
  · show parsesOf s2.trace = _
    rw [ht, parsesOf_append, hp ⟨s2, hs2⟩]
  · exact processMessages_dispatches o decode now d segs
      { s with dataBuffer := s.dataBuffer ++ d } s2 hs2
  · exact processMessages_malformedOf o decode now d segs
      { s with dataBuffer := s.dataBuffer ++ d } s2 hs2

/-- Witness for C20: a segment that is not JSON, a subscribe request and
another segment that is not JSON arrive in one chunk. -/
theorem onData_continues_after_malformed_witness :
    ∃ s1, onData (sampleOptions none false) sampleDecode 0 garbageAroundFrameChunk
        (Session.fresh 0 none) = .ok s1 ∧
      parsesOf s1.trace = [garbageText, subscribeText, garbageText] ∧
      dispatchesOf s1.trace = [subscribeDoc] ∧
      malformedOf s1.trace = [garbageText, garbageText] := by
  obtain ⟨s1, h1, h2, h3, h4⟩ := onData_continues_after_malformed (sampleOptions none false)
    sampleDecode 0 garbageAroundFrameChunk (Session.fresh 0 none)
    [garbageText, subscribeText, garbageText] [] (by decide) (by decide) (by decide)
    (by decide)
    (by
      intro seg hseg doc hdoc
      simp only [List.mem_cons, List.mem_singleton, List.not_mem_nil, or_false] at hseg
      rcases hseg with h | h | h <;> subst h
      · exact absurd hdoc (by simp [sampleDecode, garbageText, authorizeNoParamsText,
          subscribeText, submitText])
      · have : doc = subscribeDoc := by
          have e : sampleDecode subscribeText = some subscribeDoc := rfl
          rw [e] at hdoc; exact (Option.some.inj hdoc).symm
        subst this; rfl
      · exact absurd hdoc (by simp [sampleDecode, garbageText, authorizeNoParamsText,
          subscribeText, submitText]))
  exact ⟨s1, h1, h2.trans (by decide), h3.trans (by rfl), h4.trans (by rfl)⟩

end Stratum
